import Mathlib

/-!
Verification of the security-gateway / cache subsystem of the repository
(`backend/cache_manager.py`, `backend/main.py`, `backend/config_manager.py`,
`backend/services/notifications_service.py`).

The Python code is shallowly embedded: Python strings are `List Char`,
Python byte strings are `List Nat` (each entry a byte value), Python
`time.time()` instants and TTLs are `Int`, and the JSON-representable
Python value universe is the inductive type `PyVal`.  Exceptions are
modelled with `Except`.  The model of the `json` standard-library module
(`jsonDumps` / `jsonLoads`) covers the fragment relevant to the cache:
null, booleans, integers, strings, arrays and objects, serialized without
insignificant whitespace; floats are outside the model.
-/

namespace AdvisorSpec

/-- The universe of Python values that can be passed to the cache layer:
byte strings, and the JSON-representable values (`None`, `bool`, `int`,
`str`, `list`, `dict` with string keys). -/
inductive PyVal : Type where
  | vbytes (bs : List Nat)
  | vnull
  | vbool (b : Bool)
  | vint (n : Int)
  | vstr (s : List Char)
  | vlist (xs : List PyVal)
  | vdict (kvs : List (List Char × PyVal))
deriving Repr

mutual

/-- Structural equality on `PyVal`, modelling Python `==` on these values
(in Python, `b"x" == "x"` is `False`; distinct constructors never compare
equal). -/
def PyVal.beq : PyVal → PyVal → Bool
  | .vbytes a, .vbytes b => a = b
  | .vnull, .vnull => true
  | .vbool a, .vbool b => a = b
  | .vint a, .vint b => a = b
  | .vstr a, .vstr b => a = b
  | .vlist xs, .vlist ys => PyVal.beqList xs ys
  | .vdict xs, .vdict ys => PyVal.beqObj xs ys
  | _, _ => false

/-- Elementwise equality of `PyVal` lists. -/
def PyVal.beqList : List PyVal → List PyVal → Bool
  | [], [] => true
  | x :: xs, y :: ys => PyVal.beq x y && PyVal.beqList xs ys
  | _, _ => false

/-- Elementwise equality of string-keyed `PyVal` binding lists. -/
def PyVal.beqObj : List (List Char × PyVal) → List (List Char × PyVal) → Bool
  | [], [] => true
  | (k, x) :: xs, (k', y) :: ys =>
    k = k' && (PyVal.beq x y && PyVal.beqObj xs ys)
  | _, _ => false

end

/-- Association-list lookup, modelling Python `dict.get` (keys are unique
in an actual Python dict; lookup takes the first binding). -/
def alGet {K V : Type} [DecidableEq K] (l : List (K × V)) (k : K) : Option V :=
  match l with
  | [] => none
  | p :: rest => if p.1 = k then some p.2 else alGet rest k

/-- Association-list update, modelling Python `d[k] = v`: the binding for
`k` is replaced (binding order is irrelevant to every lookup). -/
def alSet {K V : Type} [DecidableEq K] (l : List (K × V)) (k : K) (v : V) :
    List (K × V) :=
  (k, v) :: l.filter (fun p => p.1 ≠ k)

/-- Association-list deletion, modelling Python `del d[k]`. -/
def alDel {K V : Type} [DecidableEq K] (l : List (K × V)) (k : K) :
    List (K × V) :=
  l.filter (fun p => p.1 ≠ k)

/-- State of `_InMemoryTTLCache`: the `_store` dict maps a key to the pair
`(expires_at, value)` (`cache_manager.py`, line 27).  The `threading.Lock`
only serializes access and has no sequential semantics. -/
structure TTLCache (α : Type) : Type where
  store : List (List Char × (Int × α))
deriving DecidableEq, Repr

/-- `_InMemoryTTLCache.get` (`cache_manager.py`, lines 30-39): a present
entry is returned while `¬ (expires_at < now)`; an entry with
`expires_at < now` is deleted and `None` is returned.  The current clock
value `now` stands for the `time.time()` call. -/
def TTLCache.get {α : Type} (c : TTLCache α) (now : Int) (key : List Char) :
    Option α × TTLCache α :=
  match alGet c.store key with
  | none => (none, c)
  | some (expiresAt, value) =>
    if expiresAt < now then (none, ⟨alDel c.store key⟩)
    else (some value, c)

/-- `_InMemoryTTLCache.set` (`cache_manager.py`, lines 41-44): stores
`(now + ttl, value)`, unconditionally overwriting any prior binding. -/
def TTLCache.set {α : Type} (c : TTLCache α) (now : Int) (key : List Char)
    (value : α) (ttlSeconds : Int) : TTLCache α :=
  ⟨alSet c.store key (now + ttlSeconds, value)⟩

/-! ## UTF-8, modelling Python `bytes.decode("utf-8")` and `str.encode` -/

/-- UTF-8 encoding of one scalar value (Lean `Char` carries the same
validity invariant as a Python `str` code point: no surrogates). -/
def utf8EncodeChar (c : Char) : List Nat :=
  let v := c.toNat
  if v < 0x80 then [v]
  else if v < 0x800 then [0xC0 + v / 64, 0x80 + v % 64]
  else if v < 0x10000 then
    [0xE0 + v / 4096, 0x80 + (v / 64) % 64, 0x80 + v % 64]
  else
    [0xF0 + v / 0x40000, 0x80 + (v / 4096) % 64, 0x80 + (v / 64) % 64,
      0x80 + v % 64]

/-- UTF-8 encoding of a Python string. -/
def utf8Encode (cs : List Char) : List Nat :=
  (cs.map utf8EncodeChar).flatten

/-- Is `b` a UTF-8 continuation byte? -/
def utf8Cont (b : Nat) : Bool :=
  0x80 ≤ b ∧ b < 0xC0

mutual

/-- Strict UTF-8 decoding, modelling `bytes.decode("utf-8")`: rejects
stray continuation bytes, overlong forms, surrogates and out-of-range
sequences; `none` stands for `UnicodeDecodeError`.  The lead byte
selects the sequence length, handled by the helpers below. -/
def utf8Decode : List Nat → Option (List Char)
  | [] => some []
  | b1 :: rest =>
    if b1 < 0x80 then
      (utf8Decode rest).map (fun cs => Char.ofNat b1 :: cs)
    else if b1 < 0xC2 then none
    else if b1 < 0xE0 then utf8DecodeTail2 b1 rest
    else if b1 < 0xF0 then utf8DecodeTail3 b1 rest
    else if b1 < 0xF5 then utf8DecodeTail4 b1 rest
    else none

/-- Continuation of a two-byte UTF-8 sequence with lead byte `b1`. -/
def utf8DecodeTail2 (b1 : Nat) : List Nat → Option (List Char)
  | b2 :: rest =>
    if utf8Cont b2 then
      (utf8Decode rest).map
        (fun cs => Char.ofNat ((b1 - 0xC0) * 64 + (b2 - 0x80)) :: cs)
    else none
  | [] => none

/-- Continuation of a three-byte UTF-8 sequence with lead byte `b1`
(checking for overlong forms and surrogates). -/
def utf8DecodeTail3 (b1 : Nat) : List Nat → Option (List Char)
  | b2 :: b3 :: rest =>
    if utf8Cont b2 ∧ utf8Cont b3 ∧
        0x800 ≤ (b1 - 0xE0) * 4096 + (b2 - 0x80) * 64 + (b3 - 0x80) ∧
        ¬ (0xD800 ≤ (b1 - 0xE0) * 4096 + (b2 - 0x80) * 64 + (b3 - 0x80) ∧
          (b1 - 0xE0) * 4096 + (b2 - 0x80) * 64 + (b3 - 0x80) < 0xE000) then
      (utf8Decode rest).map
        (fun cs =>
          Char.ofNat ((b1 - 0xE0) * 4096 + (b2 - 0x80) * 64 + (b3 - 0x80)) :: cs)
    else none
  | _ => none

/-- Continuation of a four-byte UTF-8 sequence with lead byte `b1`
(checking for overlong and out-of-range forms). -/
def utf8DecodeTail4 (b1 : Nat) : List Nat → Option (List Char)
  | b2 :: b3 :: b4 :: rest =>
    if utf8Cont b2 ∧ utf8Cont b3 ∧ utf8Cont b4 ∧
        0x10000 ≤ (b1 - 0xF0) * 0x40000 + (b2 - 0x80) * 4096 +
          (b3 - 0x80) * 64 + (b4 - 0x80) ∧
        (b1 - 0xF0) * 0x40000 + (b2 - 0x80) * 4096 +
          (b3 - 0x80) * 64 + (b4 - 0x80) < 0x110000 then
      (utf8Decode rest).map
        (fun cs =>
          Char.ofNat ((b1 - 0xF0) * 0x40000 + (b2 - 0x80) * 4096 +
            (b3 - 0x80) * 64 + (b4 - 0x80)) :: cs)
    else none
  | _ => none

end

/-! ## JSON, modelling Python `json.dumps` / `json.loads`

`_serialize` calls `json.dumps(value, ensure_ascii=False)` and
`_deserialize` calls `json.loads` (`cache_manager.py`, lines 60-73).  The
model serializes without insignificant whitespace and uses `\u00XX`
escapes for control characters (Python additionally uses `\n`-style
shorthands; the exact escape spelling is never observed by the code under
verification, only the parse of the emitted text). -/

/-- Hexadecimal digit character for `n < 16`. -/
def hexDigit (n : Nat) : Char :=
  if n < 10 then Char.ofNat (48 + n) else Char.ofNat (87 + n)

/-- Numeric value of a hexadecimal digit character, `none` otherwise. -/
def hexVal (c : Char) : Option Nat :=
  if 48 ≤ c.toNat ∧ c.toNat ≤ 57 then some (c.toNat - 48)
  else if 97 ≤ c.toNat ∧ c.toNat ≤ 102 then some (c.toNat - 87)
  else if 65 ≤ c.toNat ∧ c.toNat ≤ 70 then some (c.toNat - 55)
  else none

/-- Decimal digits of a natural number, most significant first. -/
def natDigits (n : Nat) : List Char :=
  if h : n < 10 then [Char.ofNat (48 + n)]
  else natDigits (n / 10) ++ [Char.ofNat (48 + n % 10)]
decreasing_by exact Nat.div_lt_self (by omega) (by omega)

/-- Decimal rendering of a Python `int`, as emitted by `json.dumps` and
by `str`. -/
def intDigits (n : Int) : List Char :=
  if n < 0 then '-' :: natDigits (-n).toNat else natDigits n.toNat

/-- JSON string escaping of one character. -/
def escapeChar (c : Char) : List Char :=
  if c = '"' then ['\\', '"']
  else if c = '\\' then ['\\', '\\']
  else if c.toNat < 0x20 then
    ['\\', 'u', '0', '0', hexDigit (c.toNat / 16), hexDigit (c.toNat % 16)]
  else [c]

/-- JSON rendering of a string, including the surrounding quotes. -/
def dumpStr (s : List Char) : List Char :=
  '"' :: (s.map escapeChar).flatten ++ ['"']

mutual

/-- Model of `json.dumps(value, ensure_ascii=False)` on the `PyVal`
universe; `none` models the `TypeError` raised on a non-serializable
value (a byte string anywhere inside the value). -/
def jsonDumps : PyVal → Option (List Char)
  | .vbytes _ => none
  | .vnull => some ['n', 'u', 'l', 'l']
  | .vbool true => some ['t', 'r', 'u', 'e']
  | .vbool false => some ['f', 'a', 'l', 's', 'e']
  | .vint n => some (intDigits n)
  | .vstr s => some (dumpStr s)
  | .vlist [] => some ['[', ']']
  | .vlist (x :: xs) => do
    let first ← jsonDumps x
    let tail ← jsonDumpsListTail xs
    return '[' :: first ++ tail
  | .vdict [] => some ['{', '}']
  | .vdict ((k, v) :: kvs) => do
    let firstVal ← jsonDumps v
    let tail ← jsonDumpsObjTail kvs
    return '{' :: (dumpStr k ++ ':' :: firstVal ++ tail)

/-- Renders `,elem,elem,...]` for the elements after the first. -/
def jsonDumpsListTail : List PyVal → Option (List Char)
  | [] => some [']']
  | x :: xs => do
    let d ← jsonDumps x
    let tail ← jsonDumpsListTail xs
    return ',' :: d ++ tail

/-- Renders `,"k":v,...}` for the bindings after the first. -/
def jsonDumpsObjTail : List (List Char × PyVal) → Option (List Char)
  | [] => some ['}']
  | (k, v) :: kvs => do
    let d ← jsonDumps v
    let tail ← jsonDumpsObjTail kvs
    return ',' :: (dumpStr k ++ ':' :: d ++ tail)

end

/-- Is `c` a decimal digit character? -/
def isDigitChar (c : Char) : Bool :=
  48 ≤ c.toNat ∧ c.toNat ≤ 57

mutual

/-- Parses the body of a JSON string up to and including the closing
quote, returning the decoded characters and the remaining input
(`strict` mode: raw control characters are rejected). -/
def parseStrBody : List Char → Option (List Char × List Char)
  | [] => none
  | c :: rest =>
    if c = '"' then some ([], rest)
    else if c = '\\' then parseEsc rest
    else if c.toNat < 0x20 then none
    else (parseStrBody rest).map (fun p => (c :: p.1, p.2))

/-- Parses one string escape (after the backslash) and the remainder of
the string body. -/
def parseEsc : List Char → Option (List Char × List Char)
  | [] => none
  | e :: rest =>
    if e = '"' then (parseStrBody rest).map (fun p => ('"' :: p.1, p.2))
    else if e = '\\' then
      (parseStrBody rest).map (fun p => ('\\' :: p.1, p.2))
    else if e = '/' then (parseStrBody rest).map (fun p => ('/' :: p.1, p.2))
    else if e = 'n' then (parseStrBody rest).map (fun p => ('\n' :: p.1, p.2))
    else if e = 't' then (parseStrBody rest).map (fun p => ('\t' :: p.1, p.2))
    else if e = 'r' then (parseStrBody rest).map (fun p => ('\r' :: p.1, p.2))
    else if e = 'b' then
      (parseStrBody rest).map (fun p => (Char.ofNat 8 :: p.1, p.2))
    else if e = 'f' then
      (parseStrBody rest).map (fun p => (Char.ofNat 12 :: p.1, p.2))
    else if e = 'u' then parseEscU rest
    else none

/-- Parses the four hex digits of a `\uXXXX` escape and the remainder of
the string body. -/
def parseEscU : List Char → Option (List Char × List Char)
  | h1 :: h2 :: h3 :: h4 :: rest2 =>
    match hexVal h1, hexVal h2, hexVal h3, hexVal h4 with
    | some a, some b, some c, some d =>
      (parseStrBody rest2).map
        (fun p =>
          (Char.ofNat (((a * 16 + b) * 16 + c) * 16 + d) :: p.1, p.2))
    | _, _, _, _ => none
  | _ => none

end

/-- Consumes a maximal run of decimal digits, accumulating their value. -/
def parseDigitsAux : List Char → Nat → Nat × List Char
  | [], acc => (acc, [])
  | c :: rest, acc =>
    if isDigitChar c then parseDigitsAux rest (acc * 10 + (c.toNat - 48))
    else (acc, c :: rest)

/-- Does the input start with a decimal digit? -/
def headDigit : List Char → Bool
  | [] => false
  | c :: _ => isDigitChar c

/-- Consumes the expected literal characters from the front of the
input. -/
def stripLit : List Char → List Char → Option (List Char)
  | [], input => some input
  | c :: cs, input =>
    match input with
    | d :: rest => if d = c then stripLit cs rest else none
    | [] => none

/-- A JSON whitespace character: the decoder's `WHITESPACE` class
`[ \t\n\r]`. -/
def isWsChar (c : Char) : Bool :=
  c = ' ' ∨ c = '\t' ∨ c = '\n' ∨ c = '\r'

/-- Drops leading JSON whitespace, as the decoder's `_w(s, idx).end()`
position adjustment. -/
def skipWs : List Char → List Char
  | [] => []
  | c :: rest => if isWsChar c then skipWs rest else c :: rest

/-- Parses the integer part that follows a minus sign, honouring the
`NUMBER_RE` integer grammar `(0|[1-9]\d*)`: a leading `0` is the whole
integer part, so further digits are left in the input. -/
def parseNumNeg : List Char → Option (Nat × List Char)
  | [] => none
  | d :: rest =>
    if d = '0' then some (0, rest)
    else if isDigitChar d then
      some (parseDigitsAux rest (d.toNat - 48))
    else none

/-- The pending piece of work of the recursive-descent `json.loads`
core: a whole value, the inside of an array (right after `[`, or after
one element), or the inside of an object (right after `{`, after a `,`,
or after one binding). -/
inductive PTask : Type where
  | tval (input : List Char)
  | tarrStart (input : List Char)
  | tarrTail (input : List Char)
  | tobjStart (input : List Char)
  | tobjTail (input : List Char)
  | tobjTailMember (input : List Char)
deriving Repr

/-- The result of one `PTask`: a parsed value, a parsed array tail, or a
parsed object tail, each with the remaining input. -/
inductive PRes : Type where
  | rval (v : PyVal) (rest : List Char)
  | rarr (vs : List PyVal) (rest : List Char)
  | robj (kvs : List (List Char × PyVal)) (rest : List Char)
deriving Repr

/-- Model of the recursive-descent core of `json.loads`, as one
fuel-indexed step function over parse tasks (`fuel` dominates the
nesting and element count of any parseable value; recursion is
structural on `fuel`, so the function evaluates by reduction).
A `.tval` task parses one JSON value from the front of the input
(`scan_once`, which expects a non-whitespace character at the scan
position); `.tarrStart`/`.tarrTail` handle an array after `[` and after
an element; `.tobjStart`/`.tobjTail`/`.tobjTailMember` handle an object
after `{`, after a binding, and after a `,`. Whitespace is skipped at
the decoder's junctures: after `[` and `{`, around `,` and `:`, and
before `]` and `}`. Numbers follow `NUMBER_RE`'s integer grammar
`-?(0|[1-9]\d*)`, so a leading-zero numeral such as `0123` consumes
only its `0`; numerals with a fraction or exponent part, and the
`NaN`/`Infinity` constants, are outside the modelled value universe
and not recognised. -/
def parseF : Nat → PTask → Option PRes
  | 0, _ => none
  | fuel + 1, task =>
    match task with
    | .tval input =>
      match input with
      | [] => none
      | c :: rest =>
        if c = 'n' then
          (stripLit ['u', 'l', 'l'] rest).map (fun r => .rval .vnull r)
        else if c = 't' then
          (stripLit ['r', 'u', 'e'] rest).map (fun r => .rval (.vbool true) r)
        else if c = 'f' then
          (stripLit ['a', 'l', 's', 'e'] rest).map
            (fun r => .rval (.vbool false) r)
        else if c = '"' then
          (parseStrBody rest).map (fun p => .rval (.vstr p.1) p.2)
        else if c = '[' then parseF fuel (.tarrStart rest)
        else if c = '{' then parseF fuel (.tobjStart rest)
        else if c = '-' then
          (parseNumNeg rest).map
            (fun p => .rval (.vint (-(p.1 : Int))) p.2)
        else if c = '0' then some (.rval (.vint 0) rest)
        else if isDigitChar c then
          let p := parseDigitsAux rest (c.toNat - 48)
          some (.rval (.vint (p.1 : Int)) p.2)
        else none
    | .tarrStart input =>
      match skipWs input with
      | [] => none
      | d :: r2 =>
        if d = ']' then some (.rval (.vlist []) r2)
        else
          match parseF fuel (.tval (d :: r2)) with
          | some (.rval v r) =>
            match parseF fuel (.tarrTail r) with
            | some (.rarr vs r3) => some (.rval (.vlist (v :: vs)) r3)
            | _ => none
          | _ => none
    | .tarrTail input =>
      match skipWs input with
      | [] => none
      | c :: rest =>
        if c = ']' then some (.rarr [] rest)
        else if c = ',' then
          match parseF fuel (.tval (skipWs rest)) with
          | some (.rval v r) =>
            match parseF fuel (.tarrTail r) with
            | some (.rarr vs r2) => some (.rarr (v :: vs) r2)
            | _ => none
          | _ => none
        else none
    | .tobjStart input =>
      match skipWs input with
      | [] => none
      | d :: r2 =>
        if d = '}' then some (.rval (.vdict []) r2)
        else if d = '"' then
          match parseStrBody r2 with
          | some (k, r) =>
            match skipWs r with
            | [] => none
            | e :: r1 =>
              if e = ':' then
                match parseF fuel (.tval (skipWs r1)) with
                | some (.rval v r3) =>
                  match parseF fuel (.tobjTail r3) with
                  | some (.robj kvs r4) =>
                    some (.rval (.vdict ((k, v) :: kvs)) r4)
                  | _ => none
                | _ => none
              else none
          | none => none
        else none
    | .tobjTail input =>
      match skipWs input with
      | [] => none
      | c :: rest =>
        if c = '}' then some (.robj [] rest)
        else if c = ',' then parseF fuel (.tobjTailMember (skipWs rest))
        else none
    | .tobjTailMember input =>
      match input with
      | [] => none
      | d :: r2 =>
        if d = '"' then
          match parseStrBody r2 with
          | some (k, r) =>
            match skipWs r with
            | [] => none
            | e :: r1 =>
              if e = ':' then
                match parseF fuel (.tval (skipWs r1)) with
                | some (.rval v r3) =>
                  match parseF fuel (.tobjTail r3) with
                  | some (.robj kvs r4) => some (.robj ((k, v) :: kvs) r4)
                  | _ => none
                | _ => none
              else none
          | none => none
        else none

/-- Parses one JSON value from the front of the input, returning it and
the remaining input. -/
def parseJVal (fuel : Nat) (input : List Char) :
    Option (PyVal × List Char) :=
  match parseF fuel (.tval input) with
  | some (.rval v rest) => some (v, rest)
  | _ => none

/-- Model of `json.loads` (`JSONDecoder.decode`): leading whitespace is
skipped, one JSON document is parsed, trailing whitespace is skipped,
and any further character is the `Extra data` error; `none` models
`json.JSONDecodeError`. Whitespace-padded documents such as `123\n` or
` 123 ` therefore parse, while a leading-zero numeral such as `0123`
does not (its `0` parses and `123` is extra data). Documents using
floating-point numerals or `NaN`/`Infinity` lie outside the modelled
value universe and are not recognised. -/
def jsonLoads (s : List Char) : Option PyVal :=
  match parseJVal (3 * s.length + 3) (skipWs s) with
  | some (v, rest) =>
    match skipWs rest with
    | [] => some v
    | _ :: _ => none
  | none => none

mutual

/-- Parser-fuel cost of one value: an upper bound on the fuel
`parseJVal` consumes to parse its serialization. -/
def szV : PyVal → Nat
  | .vlist xs => 2 + szTail xs
  | .vdict kvs => 2 + szObjTail kvs
  | _ => 1

/-- Parser-fuel cost of an array tail. -/
def szTail : List PyVal → Nat
  | [] => 1
  | x :: xs => 1 + szV x + szTail xs

/-- Parser-fuel cost of an object tail. -/
def szObjTail : List (List Char × PyVal) → Nat
  | [] => 1
  | (_, v) :: kvs => 2 + szV v + szObjTail kvs

end

/-! ## CacheManager (`cache_manager.py`, lines 47-94) -/

/-- Python exceptions the cache layer can raise. -/
inductive PyErr : Type where
  | unicodeDecodeError
  | typeError
deriving DecidableEq, Repr

/-- A raw cached value as handed to `_deserialize`: Redis returns byte
strings, the in-memory fallback returns whatever was stored. -/
inductive RawVal : Type where
  | rbytes (bs : List Nat)
  | rstr (s : List Char)
deriving DecidableEq, Repr

/-- `CacheManager._serialize` (lines 60-63): a `str` passes through
verbatim, `bytes` are decoded as UTF-8 (which can raise
`UnicodeDecodeError`), anything else goes through `json.dumps` (which
raises `TypeError` on non-serializable content). -/
def CacheManager.serialize : PyVal → Except PyErr (List Char)
  | .vstr s => .ok s
  | .vbytes bs =>
    match utf8Decode bs with
    | some s => .ok s
    | none => .error .unicodeDecodeError
  | v =>
    match jsonDumps v with
    | some cs => .ok cs
    | none => .error .typeError

/-- `CacheManager._deserialize` (lines 65-73): `None` input gives `None`
(modelled as `.vnull`, Python's single `None`); `bytes` are UTF-8-decoded
first (uncaught `UnicodeDecodeError` possible); the text is then parsed
with `json.loads`, and on `json.JSONDecodeError` the raw text is returned
unchanged. -/
def CacheManager.deserialize : Option RawVal → Except PyErr PyVal
  | none => .ok .vnull
  | some raw =>
    let decoded : Except PyErr (List Char) :=
      match raw with
      | .rbytes bs =>
        match utf8Decode bs with
        | some s => .ok s
        | none => .error .unicodeDecodeError
      | .rstr s => .ok s
    match decoded with
    | .error e => .error e
    | .ok s =>
      match jsonLoads s with
      | some v => .ok v
      | none => .ok (.vstr s)

/-- State of one `CacheManager`: whether `self._redis_client` is set
(`hasClient`), whether remote operations currently succeed (`remoteOk`;
`false` means every Redis call raises, covering connection, timeout and
protocol errors), the remote key-to-bytes store, and the
`_InMemoryTTLCache` fallback.  The remote store's own TTL handling is
external to the repository and is not modelled. -/
structure CMState : Type where
  hasClient : Bool
  remoteOk : Bool
  remoteData : List (List Char × List Nat)
  fallback : TTLCache (List Char)
deriving Repr

/-- Outcome of the `try` block inside `CacheManager.get`
(lines 76-82): an early `return self._deserialize(cached)`, a
fall-through when `cached is None`, or a caught exception. -/
inductive TryOutcome : Type where
  | returned (v : PyVal)
  | fellThrough
  | raised
deriving Repr

/-- The `try` block of `CacheManager.get`: Redis `get` (raising when the
remote is unhealthy), and on a non-`None` hit, `_deserialize` — whose own
exceptions are also inside this `try`. -/
def CacheManager.remoteTryGet (st : CMState) (key : List Char) : TryOutcome :=
  if st.remoteOk then
    match alGet st.remoteData key with
    | some bs =>
      match CacheManager.deserialize (some (.rbytes bs)) with
      | .ok v => .returned v
      | .error _ => .raised
    | none => .fellThrough
  else .raised

/-- The local tail of `CacheManager.get` (lines 83-84):
`cached = self._fallback_cache.get(key); return cached` — the raw stored
value, with no deserialization; a miss is Python `None` (`.vnull`). -/
def CacheManager.localGet (st : CMState) (now : Int) (key : List Char) :
    PyVal × CMState :=
  match st.fallback.get now key with
  | (some s, fb) => (.vstr s, { st with fallback := fb })
  | (none, fb) => (.vnull, { st with fallback := fb })

/-- `CacheManager.get` (lines 75-84): consult Redis inside a `try` if a
client is configured; on an early return hand back the deserialized
value; on fall-through or any caught exception query the fallback cache
and return its raw stored value (no deserialization on the local path).
A Python return value of `None` — a miss on both tiers, or a stored JSON
`null` — is `.vnull`.  Total by construction: the `try` block covers
every failing operation, so the embedded `get` cannot raise. -/
def CacheManager.get (st : CMState) (now : Int) (key : List Char) :
    PyVal × CMState :=
  if st.hasClient then
    match CacheManager.remoteTryGet st key with
    | .returned v => (v, st)
    | .fellThrough => CacheManager.localGet st now key
    | .raised => CacheManager.localGet st now key
  else CacheManager.localGet st now key

/-- `CacheManager.set` (lines 86-94): serialize (outside any `try`, so a
serialization error propagates), then `setex` on Redis inside a `try`
with an early return; on a caught remote error, or with no client, write
the fallback cache.  Redis stores the UTF-8 encoding of the text. -/
def CacheManager.set (st : CMState) (now : Int) (key : List Char)
    (value : PyVal) (ttlSeconds : Int) : Except PyErr CMState :=
  match CacheManager.serialize value with
  | .error e => .error e
  | .ok serialized =>
    if st.hasClient then
      if st.remoteOk then
        .ok { st with remoteData := alSet st.remoteData key (utf8Encode serialized) }
      else
        .ok { st with fallback := st.fallback.set now key serialized ttlSeconds }
    else
      .ok { st with fallback := st.fallback.set now key serialized ttlSeconds }

/-- `set(k, v, ttl)` immediately followed by `get(k)` (same clock value):
`none` when the `set` raised, otherwise the value `get` returned. -/
def setThenGet (st : CMState) (now : Int) (key : List Char) (value : PyVal)
    (ttlSeconds : Int) : Option PyVal :=
  match CacheManager.set st now key value ttlSeconds with
  | .error _ => none
  | .ok st1 => some (CacheManager.get st1 now key).1

/-- Is the value in the "structured" branch of `_serialize` — neither a
`str` nor `bytes`, so it is encoded with `json.dumps`? -/
def PyVal.structured : PyVal → Bool
  | .vstr _ => false
  | .vbytes _ => false
  | _ => true

/-- Is a text confined to the modelled JSON fragment: it contains none
of `.`, `e`, `E`, `N`, `I`, the characters through which a real
`json.loads` document can use a construct outside the modelled value
universe (a fraction or exponent part of a float numeral, or the
`NaN`/`Infinity`/`-Infinity` constants). On such texts `jsonLoads`
rejecting the text means the real decoder rejects it too. -/
def floatFreeText (s : List Char) : Bool :=
  s.all (fun c => ¬(c = '.' ∨ c = 'e' ∨ c = 'E' ∨ c = 'N' ∨ c = 'I'))

/-- Does the result `r` of a `get` "deserialize to `v`": either `r`
already equals `v`, or `r` is text whose `_deserialize` image is `v`. -/
def deserializesToB (r v : PyVal) : Bool :=
  PyVal.beq r v ||
    (match r with
     | .vstr s =>
       match CacheManager.deserialize (some (.rstr s)) with
       | .ok v2 => PyVal.beq v2 v
       | .error _ => false
     | _ => false)

/-! ## Security pipeline

`main.py` (lines 62-85) registers the middleware chain; the middleware
class bodies live in `security_middleware.py`, which is not part of the
sources available here, so the stage execution contract is modelled from
the spec. -/

/-- The named request-processing stages of the gateway pipeline. -/
inductive Stage : Type where
  | rateLimiter
  | sizeGuard
  | wafInspector
  | tokenAuth
  | sanitizer
  | handler
  | headerInjector
  | auditLogger
  | originCheck
deriving DecidableEq, Repr

/-- Modelled from the spec: the fixed stage order of the Pipeline
Orchestrator (spec §4.10) — Rate Limiter, Request Size Guard, WAF
Inspector, Token Authenticator, Input Sanitizer, business handler,
Security Header Injector, Audit Logger, origin-policy check. -/
def pipelineOrder : List Stage :=
  [.rateLimiter, .sizeGuard, .wafInspector, .tokenAuth, .sanitizer,
    .handler, .headerInjector, .auditLogger, .originCheck]

/-- Modelled from the spec: the orchestrator's short-circuit contract
(spec §4.10) over a stage list — each stage either continues or
terminates; at the first terminating stage all later stages are skipped
except header injection and audit logging, which still run.  The
implementing `security_middleware.py` is missing from the sources. -/
def runStages (terminated : Stage → Bool) : List Stage → List Stage
  | [] => []
  | s :: rest =>
    if terminated s then
      s :: rest.filter (fun x => x = .headerInjector ∨ x = .auditLogger)
    else s :: runStages terminated rest

/-- The stages executed for a request whose terminating behaviour is
`terminated`. -/
def executedStages (terminated : Stage → Bool) : List Stage :=
  runStages terminated pipelineOrder

/-- The middleware classes registered in `main.py`. -/
inductive MW : Type where
  | corsMiddleware
  | auditLogging
  | securityHeaders
  | inputSanitization
  | jwtAuth
  | waf
  | requestSize
  | rateLimit
deriving DecidableEq, Repr

/-- `app.add_middleware` (Starlette semantics): each call pushes the new
middleware onto the front of the stack, so the last-added middleware is
outermost — it sees the request first. -/
def addMiddleware (stack : List MW) (m : MW) : List MW :=
  m :: stack

/-- The registration sequence of `main.py` lines 62-85, in program
order: CORS, AuditLogging, SecurityHeaders, InputSanitization, JWTAuth
(with its protected path list), WAF, RequestSize, RateLimit.  The
resulting list is outermost first. -/
def mainMiddlewareStack : List MW :=
  addMiddleware
    (addMiddleware
      (addMiddleware
        (addMiddleware
          (addMiddleware
            (addMiddleware
              (addMiddleware
                (addMiddleware [] .corsMiddleware)
                .auditLogging)
              .securityHeaders)
            .inputSanitization)
          .jwtAuth)
        .waf)
      .requestSize)
    .rateLimit

/-- The pipeline stage implemented by each registered middleware class. -/
def stageOfMW : MW → Stage
  | .corsMiddleware => .originCheck
  | .auditLogging => .auditLogger
  | .securityHeaders => .headerInjector
  | .inputSanitization => .sanitizer
  | .jwtAuth => .tokenAuth
  | .waf => .wafInspector
  | .requestSize => .sizeGuard
  | .rateLimit => .rateLimiter

/-! ## Notifications service (`services/notifications_service.py`) -/

/-- A row of the `notifications` table (`database.py`, lines 97-104).
`datetime` instants are modelled as integers; `created_at` is nullable. -/
structure NotificationRow : Type where
  id : Int
  user_id : List Char
  message : List Char
  ntype : List Char
  is_read : Bool
  created_at : Option Int
deriving DecidableEq, Repr

/-- The dictionary built per row by `get_notifications`
(`notifications_service.py`, lines 46-53); `created_at` is rendered with
`isoformat()` when present (modelled as the decimal rendering of the
instant, an injective monotone rendering) and `None` otherwise. -/
structure NotificationDict : Type where
  id : Int
  user_id : List Char
  message : List Char
  ntype : List Char
  is_read : Bool
  created_at : Option (List Char)
deriving DecidableEq, Repr

/-- The per-row dictionary construction of `get_notifications`. -/
def notifToDict (n : NotificationRow) : NotificationDict :=
  ⟨n.id, n.user_id, n.message, n.ntype, n.is_read, n.created_at.map intDigits⟩

/-- `ORDER BY created_at DESC` on the configured PostgreSQL backend:
descending, with SQL `NULL` first. -/
def createdDescB (a b : NotificationRow) : Bool :=
  match a.created_at, b.created_at with
  | none, _ => true
  | some _, none => false
  | some x, some y => y ≤ x

/-- The comparison as a relation, for sortedness statements. -/
def createdDesc (a b : NotificationRow) : Prop :=
  createdDescB a b = true

instance : DecidableRel createdDesc := fun a b => by
  unfold createdDesc; infer_instance

instance : IsTotal NotificationRow createdDesc := by
  constructor
  intro a b
  unfold createdDesc createdDescB
  cases a.created_at with
  | none => left; rfl
  | some x =>
    cases b.created_at with
    | none => right; rfl
    | some y =>
      by_cases h : y ≤ x
      · left; simpa using h
      · right; simp; omega

instance : IsTrans NotificationRow createdDesc := by
  constructor
  intro a b c hab hbc
  unfold createdDesc createdDescB at hab hbc ⊢
  cases ha : a.created_at with
  | none => rfl
  | some x =>
    rw [ha] at hab
    cases hb : b.created_at with
    | none =>
      rw [hb] at hab
      simp at hab
    | some y =>
      rw [hb] at hab
      rw [hb] at hbc
      cases hc : c.created_at with
      | none =>
        rw [hc] at hbc
        simp at hbc
      | some z =>
        rw [hc] at hbc
        simp at hab hbc ⊢
        omega

/-- The query of `get_notifications` (lines 41-43):
`filter(user_id == ...)`, `order_by(created_at.desc())`, `offset(skip)`,
`limit(limit)`.  The SQL sort is modelled as insertion sort under
`createdDesc` (any sort satisfying the ordering is observationally
equivalent for the properties below). -/
def notifQuery (rows : List NotificationRow) (userId : List Char)
    (skip limit : Nat) : List NotificationRow :=
  ((List.insertionSort createdDesc
      (rows.filter (fun n => n.user_id = userId))).drop skip).take limit

/-- `get_notifications` (lines 38-57): the query runs inside a `try`;
any database exception (`db = .error`) yields `[]`; otherwise each row
is rendered as a dictionary. -/
def get_notifications (db : Except Unit (List NotificationRow))
    (userId : List Char) (skip limit : Nat) : List NotificationDict :=
  match db with
  | .error _ => []
  | .ok rows => (notifQuery rows userId skip limit).map notifToDict

/-! ## Configuration manager (`config_manager.py`) -/

/-- The module-level `_CONFIG_CACHE` dict. -/
structure ConfigState : Type where
  cache : List (List Char × PyVal)
deriving Repr

/-- What one attempt to open and parse `CONFIG_FILE_PATH` yields: the
three caught exception classes, or parsed content. -/
inductive FileReadOutcome : Type where
  | fileNotFound
  | jsonDecodeError
  | otherError
  | content (cfg : List (List Char × PyVal))
deriving Repr

/-- Result of one `load_config` call: the returned mapping, the
`_CONFIG_CACHE` afterwards, and whether the file was read (opened) at
all during the call. -/
structure LoadResult : Type where
  result : List (List Char × PyVal)
  state : ConfigState
  didRead : Bool
deriving Repr

/-- `load_config` (lines 10-31): if `_CONFIG_CACHE` is truthy (non-empty)
return it without touching the file; otherwise read and parse the file,
assigning the parse into `_CONFIG_CACHE` on success and returning `{}`
without assignment on `FileNotFoundError`, `json.JSONDecodeError`, or any
other exception. -/
def load_config (st : ConfigState) (file : FileReadOutcome) : LoadResult :=
  if st.cache.isEmpty then
    match file with
    | .content cfg => ⟨cfg, ⟨cfg⟩, true⟩
    | .fileNotFound => ⟨[], st, true⟩
    | .jsonDecodeError => ⟨[], st, true⟩
    | .otherError => ⟨[], st, true⟩
  else ⟨st.cache, st, false⟩

/-- `get_config` (lines 33-38): `load_config().get(key, default)`. -/
def get_config (st : ConfigState) (file : FileReadOutcome) (key : List Char)
    (deflt : PyVal) : PyVal × ConfigState :=
  let r := load_config st file
  ((alGet r.result key).getD deflt, r.state)

/-! ## Helper lemmas -/

mutual

/-- `PyVal.beq` is reflexive. -/
theorem PyVal.beq_refl : (v : PyVal) → PyVal.beq v v = true
  | .vbytes a => by simp [PyVal.beq]
  | .vnull => rfl
  | .vbool a => by simp [PyVal.beq]
  | .vint a => by simp [PyVal.beq]
  | .vstr a => by simp [PyVal.beq]
  | .vlist xs => by
    simp only [PyVal.beq]
    exact PyVal.beqList_refl xs
  | .vdict kvs => by
    simp only [PyVal.beq]
    exact PyVal.beqObj_refl kvs

/-- `PyVal.beqList` is reflexive. -/
theorem PyVal.beqList_refl : (xs : List PyVal) → PyVal.beqList xs xs = true
  | [] => rfl
  | x :: xs => by
    simp only [PyVal.beqList, Bool.and_eq_true]
    exact ⟨PyVal.beq_refl x, PyVal.beqList_refl xs⟩

/-- `PyVal.beqObj` is reflexive. -/
theorem PyVal.beqObj_refl :
    (kvs : List (List Char × PyVal)) → PyVal.beqObj kvs kvs = true
  | [] => rfl
  | (k, x) :: kvs => by
    simp only [PyVal.beqObj, Bool.and_eq_true]
    exact ⟨by simp, PyVal.beq_refl x, PyVal.beqObj_refl kvs⟩

end

/-- The scalar-value bounds carried by a Lean `Char`. -/
theorem char_toNat_valid (c : Char) :
    c.toNat < 0xd800 ∨ (0xdfff < c.toNat ∧ c.toNat < 0x110000) := by
  rcases c.valid with h | ⟨h1, h2⟩
  · left; exact h
  · right; exact ⟨h1, h2⟩

/-- Decoding inverts encoding, one character at a time. -/
theorem utf8Decode_encodeChar (c : Char) (rest : List Nat) :
    utf8Decode (utf8EncodeChar c ++ rest) =
      (utf8Decode rest).map (fun cs => c :: cs) := by
  have hval := char_toNat_valid c
  by_cases h1 : c.toNat < 0x80
  · have he : utf8EncodeChar c = [c.toNat] := by
      simp only [utf8EncodeChar]
      rw [if_pos h1]
    rw [he, List.cons_append, List.nil_append, utf8Decode, if_pos h1,
      Char.ofNat_toNat]
  · by_cases h2 : c.toNat < 0x800
    · have he : utf8EncodeChar c =
          [0xC0 + c.toNat / 64, 0x80 + c.toNat % 64] := by
        simp only [utf8EncodeChar]
        rw [if_neg h1, if_pos h2]
      rw [he, List.cons_append, List.cons_append, List.nil_append,
        utf8Decode, if_neg (by omega), if_neg (by omega), if_pos (by omega),
        utf8DecodeTail2,
        if_pos (by simp only [utf8Cont, decide_eq_true_eq]; omega)]
      have harg : (0xC0 + c.toNat / 64 - 0xC0) * 64 +
          (0x80 + c.toNat % 64 - 0x80) = c.toNat := by omega
      rw [harg, Char.ofNat_toNat]
    · by_cases h3 : c.toNat < 0x10000
      · have he : utf8EncodeChar c = [0xE0 + c.toNat / 4096,
            0x80 + (c.toNat / 64) % 64, 0x80 + c.toNat % 64] := by
          simp only [utf8EncodeChar]
          rw [if_neg h1, if_neg h2, if_pos h3]
        rw [he, List.cons_append, List.cons_append, List.cons_append,
          List.nil_append, utf8Decode, if_neg (by omega), if_neg (by omega),
          if_neg (by omega), if_pos (by omega), utf8DecodeTail3,
          if_pos (by
            refine ⟨by simp only [utf8Cont, decide_eq_true_eq]; omega,
              by simp only [utf8Cont, decide_eq_true_eq]; omega,
              by omega, by omega⟩)]
        have harg : (0xE0 + c.toNat / 4096 - 0xE0) * 4096 +
            (0x80 + c.toNat / 64 % 64 - 0x80) * 64 +
            (0x80 + c.toNat % 64 - 0x80) = c.toNat := by omega
        rw [harg, Char.ofNat_toNat]
      · have he : utf8EncodeChar c = [0xF0 + c.toNat / 0x40000,
            0x80 + (c.toNat / 4096) % 64, 0x80 + (c.toNat / 64) % 64,
            0x80 + c.toNat % 64] := by
          simp only [utf8EncodeChar]
          rw [if_neg h1, if_neg h2, if_neg h3]
        rw [he, List.cons_append, List.cons_append, List.cons_append,
          List.cons_append, List.nil_append, utf8Decode, if_neg (by omega),
          if_neg (by omega), if_neg (by omega), if_neg (by omega),
          if_pos (by omega), utf8DecodeTail4,
          if_pos (by
            refine ⟨by simp only [utf8Cont, decide_eq_true_eq]; omega,
              by simp only [utf8Cont, decide_eq_true_eq]; omega,
              by simp only [utf8Cont, decide_eq_true_eq]; omega,
              by omega, by omega⟩)]
        have harg : (0xF0 + c.toNat / 0x40000 - 0xF0) * 0x40000 +
            (0x80 + c.toNat / 4096 % 64 - 0x80) * 4096 +
            (0x80 + c.toNat / 64 % 64 - 0x80) * 64 +
            (0x80 + c.toNat % 64 - 0x80) = c.toNat := by omega
        rw [harg, Char.ofNat_toNat]

/-- Decoding inverts encoding in front of any remaining bytes. -/
theorem utf8Decode_encode_append (cs : List Char) (rest : List Nat) :
    utf8Decode (utf8Encode cs ++ rest) =
      (utf8Decode rest).map (fun tl => cs ++ tl) := by
  induction cs with
  | nil =>
    simp [utf8Encode]
  | cons c cs ih =>
    have : utf8Encode (c :: cs) = utf8EncodeChar c ++ utf8Encode cs := by
      simp [utf8Encode]
    rw [this, List.append_assoc, utf8Decode_encodeChar, ih]
    cases utf8Decode rest <;> simp

/-- Decoding inverts encoding: a Python `str` round-trips through its
UTF-8 bytes. -/
theorem utf8Decode_encode (cs : List Char) :
    utf8Decode (utf8Encode cs) = some cs := by
  have h := utf8Decode_encode_append cs []
  simpa [utf8Decode] using h

/-- toNat of a valid ofNat. -/
theorem toNat_ofNat_valid (m : Nat) (h : m.isValidChar) :
    (Char.ofNat m).toNat = m := by
  simp [Char.ofNat, h, Char.toNat]
  rfl

theorem toNat_ofNat_small (m : Nat) (h : m < 0xd800) :
    (Char.ofNat m).toNat = m :=
  toNat_ofNat_valid m (Or.inl h)

/-- natDigits produces a digit-headed nonempty list. -/
theorem natDigits_shape (n : Nat) :
    ∃ c cs, natDigits n = c :: cs ∧ isDigitChar c = true := by
  induction n using Nat.strong_induction_on with
  | _ n ih =>
    rw [natDigits]
    by_cases h : n < 10
    · rw [dif_pos h]
      refine ⟨Char.ofNat (48 + n), [], rfl, ?_⟩
      simp [isDigitChar, toNat_ofNat_small (48 + n) (by omega)]
      omega
    · rw [dif_neg h]
      obtain ⟨c, cs, hc, hd⟩ := ih (n / 10) (by omega)
      exact ⟨c, cs ++ [Char.ofNat (48 + n % 10)], by rw [hc]; simp, hd⟩

theorem natDigits_shape_pos (n : Nat) : 1 ≤ n →
    ∃ c cs, natDigits n = c :: cs ∧ isDigitChar c = true ∧ c ≠ '0' := by
  induction n using Nat.strong_induction_on with
  | _ n ih =>
    intro hn
    rw [natDigits]
    by_cases h : n < 10
    · rw [dif_pos h]
      refine ⟨Char.ofNat (48 + n), [], rfl, ?_, ?_⟩
      · simp [isDigitChar, toNat_ofNat_small (48 + n) (by omega)]
        omega
      · intro heq
        have ht : (Char.ofNat (48 + n)).toNat = 48 + n :=
          toNat_ofNat_small _ (by omega)
        rw [heq] at ht
        have h0 : ('0').toNat = 48 := by decide
        omega
    · rw [dif_neg h]
      obtain ⟨c, cs, hc, hd, h0⟩ := ih (n / 10) (by omega) (by omega)
      exact ⟨c, cs ++ [Char.ofNat (48 + n % 10)], by rw [hc]; simp, hd, h0⟩

theorem skipWs_cons_of_not_ws (c : Char) (l : List Char)
    (h : isWsChar c = false) : skipWs (c :: l) = c :: l := by
  rw [skipWs, if_neg (by simp [h])]

theorem parseDigitsAux_stop (rest : List Char) (acc : Nat)
    (h : headDigit rest = false) : parseDigitsAux rest acc = (acc, rest) := by
  cases rest with
  | nil => rfl
  | cons c r =>
    simp only [headDigit] at h
    rw [parseDigitsAux, if_neg (by simp [h])]

theorem parseDigitsAux_natDigits (n : Nat) : ∀ (acc : Nat) (rest : List Char),
    parseDigitsAux (natDigits n ++ rest) acc =
      parseDigitsAux rest (acc * 10 ^ (natDigits n).length + n) := by
  induction n using Nat.strong_induction_on with
  | _ n ih =>
    intro acc rest
    by_cases h : n < 10
    · rw [natDigits, dif_pos h]
      rw [List.cons_append, List.nil_append, parseDigitsAux,
        if_pos (by simp [isDigitChar, toNat_ofNat_small (48 + n) (by omega)]; omega)]
      rw [toNat_ofNat_small (48 + n) (by omega)]
      norm_num
    · rw [natDigits, dif_neg h]
      rw [List.append_assoc, ih (n / 10) (by omega), List.cons_append,
        List.nil_append, parseDigitsAux,
        if_pos (by simp [isDigitChar, toNat_ofNat_small (48 + n % 10) (by omega)]; omega)]
      rw [toNat_ofNat_small (48 + n % 10) (by omega)]
      have hlen : (natDigits (n / 10) ++ [Char.ofNat (48 + n % 10)]).length =
          (natDigits (n / 10)).length + 1 := by simp
      rw [hlen]
      congr 1
      have : 10 ^ ((natDigits (n / 10)).length + 1) =
          10 ^ (natDigits (n / 10)).length * 10 := by ring
      rw [this]
      have hmod := Nat.div_add_mod n 10
      generalize (10 : Nat) ^ (natDigits (n / 10)).length = P
      ring_nf
      omega
theorem parseF_num (fuel : Nat) (n : Int) (rest : List Char)
    (h : headDigit rest = false) :
    parseF (fuel + 1) (.tval (intDigits n ++ rest)) =
      some (.rval (.vint n) rest) := by
  have hfull : ∀ m : Nat, parseDigitsAux (natDigits m ++ rest) 0 = (m, rest) := by
    intro m
    rw [parseDigitsAux_natDigits m 0 rest, parseDigitsAux_stop rest _ h]
    simp
  by_cases hn : n < 0
  · rw [intDigits, if_pos hn]
    obtain ⟨c, cs, hc, hd, h0⟩ := natDigits_shape_pos (-n).toNat (by omega)
    rw [List.cons_append, parseF, if_neg (by decide), if_neg (by decide),
      if_neg (by decide), if_neg (by decide), if_neg (by decide),
      if_neg (by decide), if_pos rfl]
    rw [hc, List.cons_append, parseNumNeg, if_neg h0, if_pos hd]
    have hstep : parseDigitsAux ((c :: cs) ++ rest) 0 =
        parseDigitsAux (cs ++ rest) (c.toNat - 48) := by
      rw [List.cons_append, parseDigitsAux, if_pos hd]
      norm_num
    have hval : parseDigitsAux (cs ++ rest) (c.toNat - 48) =
        ((-n).toNat, rest) := by
      rw [← hstep, ← hc, hfull]
    rw [hval]
    have : ((-n).toNat : Int) = -n := Int.toNat_of_nonneg (by omega)
    simp [this]
  · rw [intDigits, if_neg hn]
    by_cases hz : n = 0
    · subst hz
      have h0 : (0 : Int).toNat = 0 := rfl
      rw [h0, natDigits, dif_pos (by omega)]
      rw [show Char.ofNat (48 + 0) = '0' from by decide]
      rw [List.cons_append, List.nil_append, parseF, if_neg (by decide),
        if_neg (by decide), if_neg (by decide), if_neg (by decide),
        if_neg (by decide), if_neg (by decide), if_neg (by decide),
        if_pos rfl]
    · obtain ⟨c, cs, hc, hd, h0⟩ := natDigits_shape_pos n.toNat (by omega)
      rw [hc, List.cons_append, parseF,
        if_neg (by intro heq; subst heq; exact absurd hd (by decide)),
        if_neg (by intro heq; subst heq; exact absurd hd (by decide)),
        if_neg (by intro heq; subst heq; exact absurd hd (by decide)),
        if_neg (by intro heq; subst heq; exact absurd hd (by decide)),
        if_neg (by intro heq; subst heq; exact absurd hd (by decide)),
        if_neg (by intro heq; subst heq; exact absurd hd (by decide)),
        if_neg (by intro heq; subst heq; exact absurd hd (by decide)),
        if_neg h0, if_pos hd]
      have hstep : parseDigitsAux ((c :: cs) ++ rest) 0 =
          parseDigitsAux (cs ++ rest) (c.toNat - 48) := by
        rw [List.cons_append, parseDigitsAux, if_pos hd]
        norm_num
      have hval : parseDigitsAux (cs ++ rest) (c.toNat - 48) =
          (n.toNat, rest) := by
        rw [← hstep, ← hc, hfull]
      rw [hval]
      have : (n.toNat : Int) = n := Int.toNat_of_nonneg (by omega)
      simp [this]

theorem hexVal_hexDigit (d : Nat) (h : d < 16) : hexVal (hexDigit d) = some d := by
  by_cases h10 : d < 10
  · have ht : (Char.ofNat (48 + d)).toNat = 48 + d :=
      toNat_ofNat_small _ (by omega)
    rw [hexDigit, if_pos h10, hexVal, ht, if_pos (by omega)]
    simp
  · have ht : (Char.ofNat (87 + d)).toNat = 87 + d :=
      toNat_ofNat_small _ (by omega)
    rw [hexDigit, if_neg h10, hexVal, ht, if_neg (by omega), if_pos (by omega)]
    simp

theorem parseStrBody_escape (s : List Char) (rest : List Char) :
    parseStrBody ((s.map escapeChar).flatten ++ ('"' :: rest)) =
      some (s, rest) := by
  induction s with
  | nil =>
    rw [List.map_nil, List.flatten_nil, List.nil_append, parseStrBody,
      if_pos rfl]
  | cons c s ih =>
    rw [List.map_cons, List.flatten_cons, List.append_assoc]
    by_cases h1 : c = '"'
    · rw [h1]
      rw [show escapeChar '"' = ['\\', '"'] from rfl]
      rw [List.cons_append, List.cons_append, List.nil_append, parseStrBody,
        if_neg (by decide), if_pos rfl, parseEsc, if_pos rfl, ih]
      rfl
    · by_cases h2 : c = '\\'
      · rw [h2]
        rw [show escapeChar '\\' = ['\\', '\\'] from rfl]
        rw [List.cons_append, List.cons_append, List.nil_append, parseStrBody,
          if_neg (by decide), if_pos rfl, parseEsc, if_neg (by decide),
          if_pos rfl, ih]
        rfl
      · by_cases h3 : c.toNat < 0x20
        · have he : escapeChar c = ['\\', 'u', '0', '0',
              hexDigit (c.toNat / 16), hexDigit (c.toNat % 16)] := by
            rw [escapeChar, if_neg h1, if_neg h2, if_pos h3]
          rw [he]
          simp only [List.cons_append, List.nil_append]
          rw [parseStrBody, if_neg (by decide), if_pos rfl, parseEsc,
            if_neg (by decide), if_neg (by decide), if_neg (by decide),
            if_neg (by decide), if_neg (by decide), if_neg (by decide),
            if_neg (by decide), if_neg (by decide), if_pos rfl, parseEscU]
          rw [show hexVal '0' = some 0 from rfl]
          rw [hexVal_hexDigit _ (by omega), hexVal_hexDigit _ (by omega)]
          dsimp only
          have harg : ((0 * 16 + 0) * 16 + c.toNat / 16) * 16 + c.toNat % 16 =
              c.toNat := by omega
          rw [harg, Char.ofNat_toNat, ih]
          rfl
        · have he : escapeChar c = [c] := by
            rw [escapeChar, if_neg h1, if_neg h2, if_neg h3]
          rw [he, List.cons_append, List.nil_append, parseStrBody,
            if_neg h1, if_neg h2, if_neg h3, ih]
          rfl
theorem szV_pos : ∀ v : PyVal, 1 ≤ szV v := by
  intro v
  cases v <;> simp only [szV] <;> omega

theorem szTail_pos : ∀ xs : List PyVal, 1 ≤ szTail xs := by
  intro xs
  cases xs with
  | nil => simp [szTail]
  | cons x xs => simp only [szTail]; omega

theorem szObjTail_pos : ∀ kvs : List (List Char × PyVal), 1 ≤ szObjTail kvs := by
  intro kvs
  rcases kvs with _ | ⟨⟨k, v⟩, kvs⟩
  · simp [szObjTail]
  · simp only [szObjTail]; omega

theorem isWsChar_of_digit (c : Char) (hd : isDigitChar c = true) :
    isWsChar c = false := by
  rw [isDigitChar] at hd
  rw [isWsChar]
  simp only [decide_eq_true_eq] at hd
  simp only [decide_eq_false_iff_not]
  rintro (rfl | rfl | rfl | rfl) <;> exact absurd hd (by decide)

theorem jsonDumps_head (v : PyVal) (cs : List Char)
    (h : jsonDumps v = some cs) :
    ∃ c cs', cs = c :: cs' ∧ c ≠ ']' ∧ isWsChar c = false := by
  cases v with
  | vbytes bs => simp [jsonDumps] at h
  | vnull =>
    rw [jsonDumps] at h
    exact ⟨'n', _, by simpa using h.symm, by decide, by decide⟩
  | vbool b =>
    cases b with
    | true =>
      rw [jsonDumps] at h
      exact ⟨'t', _, by simpa using h.symm, by decide, by decide⟩
    | false =>
      rw [jsonDumps] at h
      exact ⟨'f', _, by simpa using h.symm, by decide, by decide⟩
  | vint n =>
    rw [jsonDumps] at h
    simp only [Option.some.injEq] at h
    subst h
    by_cases hn : n < 0
    · exact ⟨'-', _, by rw [intDigits, if_pos hn], by decide, by decide⟩
    · obtain ⟨c, cs', hc, hd⟩ := natDigits_shape n.toNat
      refine ⟨c, cs', by rw [intDigits, if_neg hn, hc], ?_,
        isWsChar_of_digit c hd⟩
      intro heq
      subst heq
      exact absurd hd (by decide)
  | vstr s =>
    rw [jsonDumps] at h
    simp only [Option.some.injEq] at h
    exact ⟨'"', (List.map escapeChar s).flatten ++ ['"'],
      by rw [← h, dumpStr, List.cons_append], by decide, by decide⟩
  | vlist xs =>
    cases xs with
    | nil =>
      rw [jsonDumps] at h
      exact ⟨'[', _, by simpa using h.symm, by decide, by decide⟩
    | cons x xs =>
      rw [jsonDumps] at h
      simp only [bind, Option.bind_eq_some, Option.pure_def, Option.some.injEq] at h
      obtain ⟨d, hd, t, ht, hcs⟩ := h
      exact ⟨'[', _, hcs.symm, by decide, by decide⟩
  | vdict kvs =>
    rcases kvs with _ | ⟨⟨k, v⟩, kvs⟩
    · rw [jsonDumps] at h
      exact ⟨'{', _, by simpa using h.symm, by decide, by decide⟩
    · rw [jsonDumps] at h
      simp only [bind, Option.bind_eq_some, Option.pure_def, Option.some.injEq] at h
      obtain ⟨d, hd, t, ht, hcs⟩ := h
      exact ⟨'{', _, hcs.symm, by decide, by decide⟩

/-- A serialization starts with a non-whitespace character, so the
decoder's whitespace skipping leaves it (and anything appended) in
place. -/
theorem jsonDumps_skipWs (v : PyVal) (d : List Char)
    (h : jsonDumps v = some d) (r : List Char) :
    skipWs (d ++ r) = d ++ r := by
  obtain ⟨c, d', hd', _, hws⟩ := jsonDumps_head v d h
  subst hd'
  rw [List.cons_append, skipWs_cons_of_not_ws c _ hws]

theorem jsonDumpsListTail_headDigit (xs : List PyVal) (t r : List Char)
    (h : jsonDumpsListTail xs = some t) : headDigit (t ++ r) = false := by
  cases xs with
  | nil =>
    rw [jsonDumpsListTail] at h
    simp only [Option.some.injEq] at h
    subst h
    rfl
  | cons x xs =>
    rw [jsonDumpsListTail] at h
    simp only [bind, Option.bind_eq_some, Option.pure_def, Option.some.injEq] at h
    obtain ⟨d, hd, t2, ht2, hcs⟩ := h
    subst hcs
    rfl

theorem jsonDumpsObjTail_headDigit (kvs : List (List Char × PyVal))
    (t r : List Char) (h : jsonDumpsObjTail kvs = some t) :
    headDigit (t ++ r) = false := by
  rcases kvs with _ | ⟨⟨k, v⟩, kvs⟩
  · rw [jsonDumpsObjTail] at h
    simp only [Option.some.injEq] at h
    subst h
    rfl
  · rw [jsonDumpsObjTail] at h
    simp only [bind, Option.bind_eq_some, Option.pure_def, Option.some.injEq] at h
    obtain ⟨d, hd, t2, ht2, hcs⟩ := h
    subst hcs
    rfl

/-- A dumped array tail starts with `,` or `]`, neither of which is
whitespace, so the decoder's whitespace skipping leaves it in place. -/
theorem jsonDumpsListTail_skipWs (xs : List PyVal) (t r : List Char)
    (h : jsonDumpsListTail xs = some t) : skipWs (t ++ r) = t ++ r := by
  cases xs with
  | nil =>
    rw [jsonDumpsListTail] at h
    simp only [Option.some.injEq] at h
    subst h
    rfl
  | cons x xs =>
    rw [jsonDumpsListTail] at h
    simp only [bind, Option.bind_eq_some, Option.pure_def, Option.some.injEq] at h
    obtain ⟨d, hd, t2, ht2, hcs⟩ := h
    subst hcs
    rfl

/-- A dumped object tail starts with `,` or `}`, neither of which is
whitespace, so the decoder's whitespace skipping leaves it in place. -/
theorem jsonDumpsObjTail_skipWs (kvs : List (List Char × PyVal))
    (t r : List Char) (h : jsonDumpsObjTail kvs = some t) :
    skipWs (t ++ r) = t ++ r := by
  rcases kvs with _ | ⟨⟨k, v⟩, kvs⟩
  · rw [jsonDumpsObjTail] at h
    simp only [Option.some.injEq] at h
    subst h
    rfl
  · rw [jsonDumpsObjTail] at h
    simp only [bind, Option.bind_eq_some, Option.pure_def, Option.some.injEq] at h
    obtain ⟨d, hd, t2, ht2, hcs⟩ := h
    subst hcs
    rfl
theorem parse_dumps : ∀ fuel : Nat,
    (∀ v cs rest, jsonDumps v = some cs → szV v ≤ fuel →
      headDigit rest = false →
      parseF fuel (.tval (cs ++ rest)) = some (.rval v rest)) ∧
    (∀ xs t rest, jsonDumpsListTail xs = some t → szTail xs ≤ fuel →
      headDigit rest = false →
      parseF fuel (.tarrTail (t ++ rest)) = some (.rarr xs rest)) ∧
    (∀ kvs t rest, jsonDumpsObjTail kvs = some t → szObjTail kvs ≤ fuel →
      headDigit rest = false →
      parseF fuel (.tobjTail (t ++ rest)) = some (.robj kvs rest)) := by
  intro fuel
  induction fuel using Nat.strong_induction_on with
  | _ fuel ih =>
    refine ⟨?_, ?_, ?_⟩
    · intro v cs rest hdump hsz hrest
      obtain ⟨F, rfl⟩ : ∃ F, fuel = F + 1 :=
        ⟨fuel - 1, by have := szV_pos v; omega⟩
      cases v with
      | vbytes bs => simp [jsonDumps] at hdump
      | vnull =>
        rw [jsonDumps] at hdump
        simp only [Option.some.injEq] at hdump
        subst hdump
        simp only [List.cons_append, List.nil_append]
        rw [parseF, if_pos rfl]
        simp [stripLit]
      | vbool b =>
        cases b with
        | true =>
          rw [jsonDumps] at hdump
          simp only [Option.some.injEq] at hdump
          subst hdump
          simp only [List.cons_append, List.nil_append]
          rw [parseF, if_neg (by decide), if_pos rfl]
          simp [stripLit]
        | false =>
          rw [jsonDumps] at hdump
          simp only [Option.some.injEq] at hdump
          subst hdump
          simp only [List.cons_append, List.nil_append]
          rw [parseF, if_neg (by decide), if_neg (by decide), if_pos rfl]
          simp [stripLit]
      | vint n =>
        rw [jsonDumps] at hdump
        simp only [Option.some.injEq] at hdump
        subst hdump
        exact parseF_num F n rest hrest
      | vstr s =>
        rw [jsonDumps] at hdump
        simp only [Option.some.injEq] at hdump
        subst hdump
        have hsh : dumpStr s ++ rest =
            '"' :: ((List.map escapeChar s).flatten ++ ('"' :: rest)) := by
          simp [dumpStr]
        rw [hsh, parseF, if_neg (by decide), if_neg (by decide),
          if_neg (by decide), if_pos rfl, parseStrBody_escape]
        rfl
      | vlist xs =>
        cases xs with
        | nil =>
          rw [jsonDumps] at hdump
          simp only [Option.some.injEq] at hdump
          subst hdump
          simp only [szV, szTail] at hsz
          obtain ⟨F2, rfl⟩ : ∃ F2, F = F2 + 1 := ⟨F - 1, by omega⟩
          simp only [List.cons_append, List.nil_append]
          rw [parseF, if_neg (by decide), if_neg (by decide),
            if_neg (by decide), if_neg (by decide), if_pos rfl]
          rw [parseF, skipWs_cons_of_not_ws ']' rest (by decide)]
          dsimp only
          rw [if_pos rfl]
        | cons x xs =>
          rw [jsonDumps] at hdump
          simp only [bind, Option.bind_eq_some, Option.pure_def,
            Option.some.injEq] at hdump
          obtain ⟨d, hd, t, ht, hcs⟩ := hdump
          subst hcs
          simp only [szV, szTail] at hsz
          obtain ⟨F2, rfl⟩ : ∃ F2, F = F2 + 1 := ⟨F - 1, by omega⟩
          have hszx : szV x ≤ F2 := by omega
          have hszxs : szTail xs ≤ F2 := by omega
          have hsh : (('[' :: d) ++ t) ++ rest = '[' :: (d ++ (t ++ rest)) := by
            simp
          rw [hsh, parseF, if_neg (by decide), if_neg (by decide),
            if_neg (by decide), if_neg (by decide), if_pos rfl]
          obtain ⟨c0, d', hd', hne, hws⟩ := jsonDumps_head x d hd
          subst hd'
          have hx : parseF F2 (.tval (c0 :: (d' ++ (t ++ rest)))) =
              some (.rval x (t ++ rest)) := by
            have := (ih F2 (by omega)).1 x (c0 :: d') (t ++ rest) hd hszx
              (jsonDumpsListTail_headDigit xs t rest ht)
            rw [List.cons_append] at this
            exact this
          have ha : parseF F2 (.tarrTail (t ++ rest)) =
              some (.rarr xs rest) :=
            (ih F2 (by omega)).2.1 xs t rest ht hszxs hrest
          rw [List.cons_append, parseF, skipWs_cons_of_not_ws c0 _ hws]
          dsimp only
          rw [if_neg hne, hx]
          dsimp only
          rw [ha]
      | vdict kvs =>
        rcases kvs with _ | ⟨⟨k, v⟩, kvs⟩
        · rw [jsonDumps] at hdump
          simp only [Option.some.injEq] at hdump
          subst hdump
          simp only [szV, szObjTail] at hsz
          obtain ⟨F2, rfl⟩ : ∃ F2, F = F2 + 1 := ⟨F - 1, by omega⟩
          simp only [List.cons_append, List.nil_append]
          rw [parseF, if_neg (by decide), if_neg (by decide),
            if_neg (by decide), if_neg (by decide), if_neg (by decide),
            if_pos rfl]
          rw [parseF, skipWs_cons_of_not_ws '}' rest (by decide)]
          dsimp only
          rw [if_pos rfl]
        · rw [jsonDumps] at hdump
          simp only [bind, Option.bind_eq_some, Option.pure_def,
            Option.some.injEq] at hdump
          obtain ⟨d, hd, t, ht, hcs⟩ := hdump
          subst hcs
          simp only [szV, szObjTail] at hsz
          obtain ⟨F2, rfl⟩ : ∃ F2, F = F2 + 1 := ⟨F - 1, by omega⟩
          have hszv : szV v ≤ F2 := by omega
          have hszkvs : szObjTail kvs ≤ F2 := by omega
          have hsh : (('{' :: (dumpStr k ++ ':' :: d ++ t)) ++ rest) =
              '{' :: ('"' :: ((List.map escapeChar k).flatten ++
                ('"' :: (':' :: (d ++ (t ++ rest)))))) := by
            simp [dumpStr]
          rw [hsh, parseF, if_neg (by decide), if_neg (by decide),
            if_neg (by decide), if_neg (by decide), if_neg (by decide),
            if_pos rfl]
          have hv : parseF F2 (.tval (d ++ (t ++ rest))) =
              some (.rval v (t ++ rest)) :=
            (ih F2 (by omega)).1 v d (t ++ rest) hd hszv
              (jsonDumpsObjTail_headDigit kvs t rest ht)
          have ho : parseF F2 (.tobjTail (t ++ rest)) =
              some (.robj kvs rest) :=
            (ih F2 (by omega)).2.2 kvs t rest ht hszkvs hrest
          rw [parseF, skipWs_cons_of_not_ws '"' _ (by decide)]
          dsimp only
          rw [if_neg (by decide), if_pos rfl, parseStrBody_escape]
          dsimp only
          rw [skipWs_cons_of_not_ws ':' _ (by decide)]
          dsimp only
          rw [if_pos rfl, jsonDumps_skipWs v d hd (t ++ rest), hv]
          dsimp only
          rw [ho]
    · intro xs t rest ht hsz hrest
      obtain ⟨F, rfl⟩ : ∃ F, fuel = F + 1 :=
        ⟨fuel - 1, by have := szTail_pos xs; omega⟩
      cases xs with
      | nil =>
        rw [jsonDumpsListTail] at ht
        simp only [Option.some.injEq] at ht
        subst ht
        simp only [List.cons_append, List.nil_append]
        rw [parseF, skipWs_cons_of_not_ws ']' rest (by decide)]
        dsimp only
        rw [if_pos rfl]
      | cons x xs =>
        rw [jsonDumpsListTail] at ht
        simp only [bind, Option.bind_eq_some, Option.pure_def,
          Option.some.injEq] at ht
        obtain ⟨d, hd, t2, ht2, hcs⟩ := ht
        subst hcs
        simp only [szTail] at hsz
        have hszx : szV x ≤ F := by omega
        have hszxs : szTail xs ≤ F := by omega
        have hsh : ((',' :: d) ++ t2) ++ rest = ',' :: (d ++ (t2 ++ rest)) := by
          simp
        rw [hsh, parseF, skipWs_cons_of_not_ws ',' _ (by decide)]
        dsimp only
        rw [if_neg (by decide), if_pos rfl]
        have hx : parseF F (.tval (d ++ (t2 ++ rest))) =
            some (.rval x (t2 ++ rest)) :=
          (ih F (by omega)).1 x d (t2 ++ rest) hd hszx
            (jsonDumpsListTail_headDigit xs t2 rest ht2)
        have ha : parseF F (.tarrTail (t2 ++ rest)) =
            some (.rarr xs rest) :=
          (ih F (by omega)).2.1 xs t2 rest ht2 hszxs hrest
        rw [jsonDumps_skipWs x d hd (t2 ++ rest), hx]
        dsimp only
        rw [ha]
    · intro kvs t rest ht hsz hrest
      obtain ⟨F, rfl⟩ : ∃ F, fuel = F + 1 :=
        ⟨fuel - 1, by have := szObjTail_pos kvs; omega⟩
      rcases kvs with _ | ⟨⟨k, v⟩, kvs⟩
      · rw [jsonDumpsObjTail] at ht
        simp only [Option.some.injEq] at ht
        subst ht
        simp only [List.cons_append, List.nil_append]
        rw [parseF, skipWs_cons_of_not_ws '}' rest (by decide)]
        dsimp only
        rw [if_pos rfl]
      · rw [jsonDumpsObjTail] at ht
        simp only [bind, Option.bind_eq_some, Option.pure_def,
          Option.some.injEq] at ht
        obtain ⟨d, hd, t2, ht2, hcs⟩ := ht
        subst hcs
        simp only [szObjTail] at hsz
        obtain ⟨F2, rfl⟩ : ∃ F2, F = F2 + 1 := ⟨F - 1, by omega⟩
        have hszv : szV v ≤ F2 := by omega
        have hszkvs : szObjTail kvs ≤ F2 := by omega
        have hsh : ((',' :: (dumpStr k ++ ':' :: d ++ t2)) ++ rest) =
            ',' :: ('"' :: ((List.map escapeChar k).flatten ++
              ('"' :: (':' :: (d ++ (t2 ++ rest)))))) := by
          simp [dumpStr]
        rw [hsh, parseF, skipWs_cons_of_not_ws ',' _ (by decide)]
        dsimp only
        rw [if_neg (by decide), if_pos rfl]
        have hv : parseF F2 (.tval (d ++ (t2 ++ rest))) =
            some (.rval v (t2 ++ rest)) :=
          (ih F2 (by omega)).1 v d (t2 ++ rest) hd hszv
            (jsonDumpsObjTail_headDigit kvs t2 rest ht2)
        have ho : parseF F2 (.tobjTail (t2 ++ rest)) =
            some (.robj kvs rest) :=
          (ih F2 (by omega)).2.2 kvs t2 rest ht2 hszkvs hrest
        rw [skipWs_cons_of_not_ws '"' _ (by decide)]
        rw [parseF, if_pos rfl, parseStrBody_escape]
        dsimp only
        rw [skipWs_cons_of_not_ws ':' _ (by decide)]
        dsimp only
        rw [if_pos rfl, jsonDumps_skipWs v d hd (t2 ++ rest), hv]
        dsimp only
        rw [ho]

theorem intDigits_ne_nil (n : Int) : intDigits n ≠ [] := by
  rw [intDigits]
  by_cases hn : n < 0
  · rw [if_pos hn]
    simp
  · rw [if_neg hn]
    obtain ⟨c, cs, hc, _⟩ := natDigits_shape n.toNat
    rw [hc]
    simp

mutual

/-- The parser-fuel cost of a value is dominated by twice the length of
its serialization. -/
theorem szV_le_dumps : ∀ (v : PyVal) (cs : List Char),
    jsonDumps v = some cs → szV v ≤ 3 * cs.length
  | .vbytes bs, cs, h => by simp [jsonDumps] at h
  | .vnull, cs, h => by
    rw [jsonDumps] at h
    simp only [Option.some.injEq] at h
    subst h
    simp [szV]
  | .vbool b, cs, h => by
    cases b with
    | true =>
      rw [jsonDumps] at h
      simp only [Option.some.injEq] at h
      subst h
      simp [szV]
    | false =>
      rw [jsonDumps] at h
      simp only [Option.some.injEq] at h
      subst h
      simp [szV]
  | .vint n, cs, h => by
    rw [jsonDumps] at h
    simp only [Option.some.injEq] at h
    subst h
    have hne := intDigits_ne_nil n
    have : 1 ≤ (intDigits n).length := by
      cases hi : intDigits n with
      | nil => exact absurd hi hne
      | cons c cs => simp
    simp only [szV]
    omega
  | .vstr s, cs, h => by
    rw [jsonDumps] at h
    simp only [Option.some.injEq] at h
    subst h
    simp only [szV, dumpStr]
    simp only [List.length_append, List.length_cons]
    omega
  | .vlist [], cs, h => by
    rw [jsonDumps] at h
    simp only [Option.some.injEq] at h
    subst h
    simp [szV, szTail]
  | .vlist (x :: xs), cs, h => by
    rw [jsonDumps] at h
    simp only [bind, Option.bind_eq_some, Option.pure_def,
      Option.some.injEq] at h
    obtain ⟨d, hd, t, ht, hcs⟩ := h
    subst hcs
    have h1 := szV_le_dumps x d hd
    have h2 := szTail_le_dumps xs t ht
    simp only [szV, szTail, List.length_append, List.length_cons]
    omega
  | .vdict [], cs, h => by
    rw [jsonDumps] at h
    simp only [Option.some.injEq] at h
    subst h
    simp [szV, szObjTail]
  | .vdict ((k, v) :: kvs), cs, h => by
    rw [jsonDumps] at h
    simp only [bind, Option.bind_eq_some, Option.pure_def,
      Option.some.injEq] at h
    obtain ⟨d, hd, t, ht, hcs⟩ := h
    subst hcs
    have h1 := szV_le_dumps v d hd
    have h2 := szObjTail_le_dumps kvs t ht
    simp only [szV, szObjTail, List.length_append, List.length_cons]
    omega

/-- The parser-fuel cost of an array tail is dominated by twice the
length of its serialization. -/
theorem szTail_le_dumps : ∀ (xs : List PyVal) (t : List Char),
    jsonDumpsListTail xs = some t → szTail xs ≤ 3 * t.length
  | [], t, h => by
    rw [jsonDumpsListTail] at h
    simp only [Option.some.injEq] at h
    subst h
    simp [szTail]
  | x :: xs, t, h => by
    rw [jsonDumpsListTail] at h
    simp only [bind, Option.bind_eq_some, Option.pure_def,
      Option.some.injEq] at h
    obtain ⟨d, hd, t2, ht2, hcs⟩ := h
    subst hcs
    have h1 := szV_le_dumps x d hd
    have h2 := szTail_le_dumps xs t2 ht2
    simp only [szTail, List.length_append, List.length_cons]
    omega

/-- The parser-fuel cost of an object tail is dominated by twice the
length of its serialization. -/
theorem szObjTail_le_dumps : ∀ (kvs : List (List Char × PyVal)) (t : List Char),
    jsonDumpsObjTail kvs = some t → szObjTail kvs ≤ 3 * t.length
  | [], t, h => by
    rw [jsonDumpsObjTail] at h
    simp only [Option.some.injEq] at h
    subst h
    simp [szObjTail]
  | (k, v) :: kvs, t, h => by
    rw [jsonDumpsObjTail] at h
    simp only [bind, Option.bind_eq_some, Option.pure_def,
      Option.some.injEq] at h
    obtain ⟨d, hd, t2, ht2, hcs⟩ := h
    subst hcs
    have h1 := szV_le_dumps v d hd
    have h2 := szObjTail_le_dumps kvs t2 ht2
    simp only [szObjTail, List.length_append, List.length_cons]
    omega

end

/-- `json.loads` inverts `json.dumps`: the serialization of any
serializable value parses back to that value. -/
theorem jsonLoads_dumps (v : PyVal) (cs : List Char)
    (h : jsonDumps v = some cs) : jsonLoads cs = some v := by
  have hsz := szV_le_dumps v cs h
  have hp := (parse_dumps (3 * cs.length + 3)).1 v cs [] h (by omega) rfl
  rw [List.append_nil] at hp
  have hskip : skipWs cs = cs := by
    have := jsonDumps_skipWs v cs h []
    rwa [List.append_nil] at this
  rw [jsonLoads, hskip, parseJVal, hp]
  rfl

/-! ## Shared lemmas about the association-list and cache operations -/

theorem alGet_alSet_self {K V : Type} [DecidableEq K]
    (l : List (K × V)) (k : K) (v : V) : alGet (alSet l k v) k = some v := by
  rw [alSet, alGet, if_pos rfl]

theorem alGet_alSet_ne {K V : Type} [DecidableEq K]
    (l : List (K × V)) (k k' : K) (v : V) (h : k' ≠ k) :
    alGet (alSet l k v) k' = alGet l k' := by
  rw [alSet, alGet, if_neg (by intro he; exact h he.symm)]
  induction l with
  | nil => rfl
  | cons p rest ih =>
    by_cases hp : p.1 = k
    · rw [alGet, if_neg (by rw [hp]; intro he; exact h he.symm)]
      rw [List.filter_cons, if_neg (by simp [hp])]
      exact ih
    · rw [List.filter_cons, if_pos (by simp [hp]), alGet, alGet]
      by_cases hk' : p.1 = k'
      · rw [if_pos hk', if_pos hk']
      · rw [if_neg hk', if_neg hk']
        exact ih

theorem alGet_alDel_self {K V : Type} [DecidableEq K]
    (l : List (K × V)) (k : K) : alGet (alDel l k) k = none := by
  rw [alDel]
  induction l with
  | nil => rfl
  | cons p rest ih =>
    by_cases hp : p.1 = k
    · rw [List.filter_cons, if_neg (by simp [hp])]
      exact ih
    · rw [List.filter_cons, if_pos (by simp [hp]), alGet, if_neg hp]
      exact ih

/-- `runStages` only ever executes stages of the given list, in order. -/
theorem runStages_sublist (t : Stage → Bool) :
    ∀ l : List Stage, List.Sublist (runStages t l) l := by
  intro l
  induction l with
  | nil => simp [runStages]
  | cons s rest ih =>
    rw [runStages]
    by_cases h : t s
    · rw [if_pos h]
      exact List.Sublist.cons₂ s (List.filter_sublist rest)
    · rw [if_neg h]
      exact List.Sublist.cons₂ s ih

/-! ## Claim theorems -/

/-- Claim C5 (amended): for a key held by the local store, `get` returns
the stored value while `now ≤ expiresAt`; once `now` is strictly past
`expiresAt` the entry is treated as absent: `get` returns `None` and
evicts the entry from the map on that access. -/
theorem C5_local_expiry (α : Type) (c : TTLCache α) (key : List Char)
    (now exp : Int) (v : α) (h : alGet c.store key = some (exp, v)) :
    (now ≤ exp → c.get now key = (some v, c)) ∧
    (exp < now →
      c.get now key = (none, ⟨alDel c.store key⟩) ∧
      alGet (alDel c.store key) key = none) := by
  constructor
  · intro hle
    rw [TTLCache.get, h]
    dsimp only
    rw [if_neg (by omega)]
  · intro hlt
    rw [TTLCache.get, h]
    dsimp only
    rw [if_pos hlt]
    exact ⟨rfl, alGet_alDel_self c.store key⟩

/-- Witness for C5: an entry with expiry 5 read at time 3 is returned;
read at time 9 it is absent and evicted. -/
theorem C5_witness :
    (TTLCache.get (⟨[(['k'], (5, (7 : Nat)))]⟩ : TTLCache Nat) 3 ['k'] =
      (some 7, ⟨[(['k'], (5, 7))]⟩)) ∧
    (TTLCache.get (⟨[(['k'], (5, (7 : Nat)))]⟩ : TTLCache Nat) 9 ['k'] =
      (none, ⟨alDel [(['k'], (5, 7))] ['k']⟩)) :=
  ⟨(C5_local_expiry Nat ⟨[(['k'], (5, 7))]⟩ ['k'] 3 5 7 rfl).1 (by omega),
    ((C5_local_expiry Nat ⟨[(['k'], (5, 7))]⟩ ['k'] 9 5 7 rfl).2 (by omega)).1⟩

/-- Counterexample for C5 as stated: the claim says a read at or after
`expiresAt` observes absence, but the code tests `expires_at < now`
strictly, so a read exactly at `expiresAt` (here `now = 5 = expiresAt`)
still returns the stored value. -/
theorem C5_counterexample :
    (TTLCache.get (⟨[(['k'], (5, (7 : Nat)))]⟩ : TTLCache Nat) 5 ['k']).1 =
      some 7 := rfl

/-- Claim C7 (amended): the local store's `set` stores `(now + ttl, v)`,
overwriting any prior entry for the key and leaving other keys alone,
and never raises (the embedded `set` is a total function).  A
non-positive `ttl` produces an entry that is already at or past its
expiry, so any `get` at a strictly later clock value returns absent; a
strictly negative `ttl` is absent even at the very same clock value.
(A zero `ttl` entry read at the exact same clock value is still
returned — see the counterexample.) -/
theorem C7_local_set (α : Type) (c : TTLCache α) (key : List Char) (v : α)
    (ttl now : Int) :
    alGet ((c.set now key v ttl).store) key = some (now + ttl, v) ∧
    (∀ k', k' ≠ key → alGet ((c.set now key v ttl).store) k' =
      alGet c.store k') ∧
    (ttl ≤ 0 → ∀ now', now < now' →
      ((c.set now key v ttl).get now' key).1 = none) ∧
    (ttl < 0 → ((c.set now key v ttl).get now key).1 = none) := by
  refine ⟨alGet_alSet_self c.store key (now + ttl, v),
    fun k' hk' => alGet_alSet_ne c.store key k' (now + ttl, v) hk', ?_, ?_⟩
  · intro httl now' hlt
    rw [TTLCache.set, TTLCache.get, alGet_alSet_self]
    dsimp only
    rw [if_pos (by omega)]
  · intro httl
    rw [TTLCache.set, TTLCache.get, alGet_alSet_self]
    dsimp only
    rw [if_pos (by omega)]

/-- Witness for C7: overwriting set, other key preserved, and absence
after expiry for `ttl = 0` at a later time and `ttl = -1` at once. -/
theorem C7_witness :
    alGet ((TTLCache.set (⟨[(['k'], (99, (1 : Nat)))]⟩ : TTLCache Nat)
      10 ['k'] 7 5).store) ['k'] = some (15, 7) ∧
    alGet ((TTLCache.set (⟨[(['q'], (99, (1 : Nat)))]⟩ : TTLCache Nat)
      10 ['k'] 7 5).store) ['q'] = some (99, 1) ∧
    ((TTLCache.set (⟨[]⟩ : TTLCache Nat) 10 ['k'] 7 0).get 11 ['k']).1 =
      none ∧
    ((TTLCache.set (⟨[]⟩ : TTLCache Nat) 10 ['k'] 7 (-1)).get 10 ['k']).1 =
      none :=
  ⟨(C7_local_set Nat ⟨[(['k'], (99, 1))]⟩ ['k'] 7 5 10).1,
    (C7_local_set Nat ⟨[(['q'], (99, 1))]⟩ ['k'] 7 5 10).2.1 ['q']
      (by decide),
    (C7_local_set Nat ⟨[]⟩ ['k'] 7 0 10).2.2.1 (by omega) 11 (by omega),
    (C7_local_set Nat ⟨[]⟩ ['k'] 7 (-1) 10).2.2.2 (by omega)⟩

/-- Counterexample for C7 as stated: with `ttl = 0` the claim says the
entry behaves as already expired so a subsequent `get` returns absent,
but a `get` at the very same clock value (`time.time()` can return the
same float twice) still returns the value, because the expiry test is
strict. -/
theorem C7_counterexample :
    ((TTLCache.set (⟨[]⟩ : TTLCache Nat) 10 ['k'] 7 0).get 10 ['k']).1 =
      some 7 := rfl

/-- Claim C3 (spec-modelled): when the WAF stage is the first to reject
a request, none of Token Authenticator, Input Sanitizer, or the business
handler executes, while the Security Header Injector and the Audit
Logger still run on the early-exit path. -/
theorem C3_waf_early_exit (t : Stage → Bool)
    (h1 : t .rateLimiter = false) (h2 : t .sizeGuard = false)
    (h3 : t .wafInspector = true) :
    Stage.tokenAuth ∉ executedStages t ∧
    Stage.sanitizer ∉ executedStages t ∧
    Stage.handler ∉ executedStages t ∧
    Stage.headerInjector ∈ executedStages t ∧
    Stage.auditLogger ∈ executedStages t := by
  have he : executedStages t = [.rateLimiter, .sizeGuard, .wafInspector,
      .headerInjector, .auditLogger] := by
    simp [executedStages, pipelineOrder, runStages, h1, h2, h3]
  rw [he]
  exact ⟨by simp, by simp, by simp, by simp, by simp⟩

/-- Witness for C3 at the request that the WAF (and only the WAF)
rejects. -/
theorem C3_witness :
    Stage.tokenAuth ∉ executedStages (fun s => s == .wafInspector) ∧
    Stage.sanitizer ∉ executedStages (fun s => s == .wafInspector) ∧
    Stage.handler ∉ executedStages (fun s => s == .wafInspector) ∧
    Stage.headerInjector ∈ executedStages (fun s => s == .wafInspector) ∧
    Stage.auditLogger ∈ executedStages (fun s => s == .wafInspector) :=
  C3_waf_early_exit (fun s => s == .wafInspector) rfl rfl rfl

/-- Claim C6 (spec-modelled): `main.py` registers the middleware so that
the outermost-first processing order is RateLimit, RequestSize, WAF,
JWTAuth, InputSanitization, SecurityHeaders, AuditLogging, CORS — which
is exactly the spec's fixed stage order with the external business
handler inserted; a request no stage terminates executes all stages in
exactly that order, and every request executes a subsequence of it. -/
theorem C6_pipeline_order :
    mainMiddlewareStack = [.rateLimit, .requestSize, .waf, .jwtAuth,
      .inputSanitization, .securityHeaders, .auditLogging,
      .corsMiddleware] ∧
    mainMiddlewareStack.map stageOfMW =
      pipelineOrder.filter (fun s => s ≠ Stage.handler) ∧
    executedStages (fun _ => false) = pipelineOrder ∧
    ∀ t : Stage → Bool, List.Sublist (executedStages t) pipelineOrder := by
  refine ⟨rfl, by decide, by decide, ?_⟩
  intro t
  exact runStages_sublist t pipelineOrder

/-- Claim C9: `get_notifications` returns at most `limit` dictionaries,
built from the user's rows sorted by `created_at` descending (SQL
`NULL`s first on the PostgreSQL backend), and returns `[]` when the
database query raises. -/
theorem C9_notifications :
    (∀ (rows : List NotificationRow) (uid : List Char) (skip limit : Nat),
      get_notifications (.ok rows) uid skip limit =
        (notifQuery rows uid skip limit).map notifToDict ∧
      (get_notifications (.ok rows) uid skip limit).length ≤ limit ∧
      List.Sorted createdDesc (notifQuery rows uid skip limit)) ∧
    (∀ (uid : List Char) (skip limit : Nat),
      get_notifications (.error ()) uid skip limit = []) := by
  refine ⟨fun rows uid skip limit => ⟨rfl, ?_, ?_⟩, fun _ _ _ => rfl⟩
  · rw [get_notifications]
    rw [List.length_map, notifQuery, List.length_take]
    omega
  · rw [notifQuery]
    exact List.Pairwise.sublist
      (List.Sublist.trans (List.take_sublist _ _) (List.drop_sublist _ _))
      (List.sorted_insertionSort createdDesc _)

/-- Claim C10: `load_config` returns `{}` and leaves the cache empty on
a missing file, bad JSON, or any other read error (so a later call
re-reads the file); with a non-empty cached configuration every call
returns the cache without reading the file; a successful parse is
assigned into the cache, and a non-empty cached configuration makes
every later `load_config` and `get_config` serve from the cache. -/
theorem C10_config_cache :
    (∀ st : ConfigState, st.cache = [] →
      load_config st .fileNotFound = ⟨[], st, true⟩ ∧
      load_config st .jsonDecodeError = ⟨[], st, true⟩ ∧
      load_config st .otherError = ⟨[], st, true⟩) ∧
    (∀ (st : ConfigState) (file : FileReadOutcome), st.cache = [] →
      (load_config st file).didRead = true) ∧
    (∀ (st : ConfigState) (file : FileReadOutcome), st.cache ≠ [] →
      load_config st file = ⟨st.cache, st, false⟩) ∧
    (∀ (st : ConfigState) (cfg : List (List Char × PyVal)), st.cache = [] →
      load_config st (.content cfg) = ⟨cfg, ⟨cfg⟩, true⟩) ∧
    (∀ (cfg : List (List Char × PyVal)) (file : FileReadOutcome)
        (key : List Char) (dflt : PyVal), cfg ≠ [] →
      load_config ⟨cfg⟩ file = ⟨cfg, ⟨cfg⟩, false⟩ ∧
      get_config ⟨cfg⟩ file key dflt = ((alGet cfg key).getD dflt, ⟨cfg⟩)) := by
  refine ⟨?_, ?_, ?_, ?_, ?_⟩
  · intro st h
    rw [load_config.eq_def, if_pos (by simp [h])]
    rw [load_config.eq_def, if_pos (by simp [h])]
    rw [load_config.eq_def, if_pos (by simp [h])]
    exact ⟨rfl, rfl, rfl⟩
  · intro st file h
    rw [load_config.eq_def, if_pos (by simp [h])]
    cases file <;> rfl
  · intro st file h
    rw [load_config.eq_def, if_neg (by simp [h])]
  · intro st cfg h
    rw [load_config.eq_def, if_pos (by simp [h])]
  · intro cfg file key dflt h
    have hl : load_config ⟨cfg⟩ file = ⟨cfg, ⟨cfg⟩, false⟩ := by
      rw [load_config.eq_def, if_neg (by simp [h])]
    exact ⟨hl, by rw [get_config, hl]⟩

/-- Witness for C10 at concrete states: empty cache with each error
outcome, a successful parse, and a populated cache. -/
theorem C10_witness :
    load_config ⟨[]⟩ .fileNotFound = ⟨[], ⟨[]⟩, true⟩ ∧
    (load_config ⟨[]⟩ .jsonDecodeError).didRead = true ∧
    load_config ⟨[]⟩ (.content [(['a'], .vint 1)]) =
      ⟨[(['a'], .vint 1)], ⟨[(['a'], .vint 1)]⟩, true⟩ ∧
    load_config ⟨[(['a'], .vint 1)]⟩ .otherError =
      ⟨[(['a'], .vint 1)], ⟨[(['a'], .vint 1)]⟩, false⟩ ∧
    get_config ⟨[(['a'], .vint 1)]⟩ .otherError ['a'] .vnull =
      (.vint 1, ⟨[(['a'], .vint 1)]⟩) :=
  ⟨(C10_config_cache.1 ⟨[]⟩ rfl).1,
    C10_config_cache.2.1 ⟨[]⟩ .jsonDecodeError rfl,
    C10_config_cache.2.2.2.1 ⟨[]⟩ [(['a'], .vint 1)] rfl,
    (C10_config_cache.2.2.2.2 [(['a'], .vint 1)] .otherError ['a'] .vnull
      (by simp)).1,
    by
      have := (C10_config_cache.2.2.2.2 [(['a'], .vint 1)] .otherError ['a']
        .vnull (by simp)).2
      simpa [alGet] using this⟩

/-! ## Cache-manager claims -/

/-- Serialization of a structured (non-`str`, non-`bytes`) value is its
`json.dumps` text. -/
theorem serialize_structured (v : PyVal) (cs : List Char)
    (hs : v.structured = true) (hd : jsonDumps v = some cs) :
    CacheManager.serialize v = .ok cs := by
  cases v with
  | vstr s => simp [PyVal.structured] at hs
  | vbytes bs => simp [PyVal.structured] at hs
  | vnull =>
    rw [CacheManager.serialize, hd] <;> exact fun a ha => PyVal.noConfusion ha
  | vbool b =>
    rw [CacheManager.serialize, hd] <;> exact fun a ha => PyVal.noConfusion ha
  | vint n =>
    rw [CacheManager.serialize, hd] <;> exact fun a ha => PyVal.noConfusion ha
  | vlist xs =>
    rw [CacheManager.serialize, hd] <;> exact fun a ha => PyVal.noConfusion ha
  | vdict kvs =>
    rw [CacheManager.serialize, hd] <;> exact fun a ha => PyVal.noConfusion ha

/-- With a configured client and a healthy remote, `set` writes the
UTF-8 bytes of the serialization to the remote store and returns. -/
theorem set_remote_eq (st : CMState) (now : Int) (key : List Char)
    (v : PyVal) (ttl : Int) (s : List Char)
    (hser : CacheManager.serialize v = .ok s) (hc : st.hasClient = true)
    (hok : st.remoteOk = true) :
    CacheManager.set st now key v ttl =
      .ok { st with remoteData := alSet st.remoteData key (utf8Encode s) } := by
  rw [CacheManager.set, hser]
  dsimp only
  rw [if_pos hc, if_pos hok]

/-- With no client, or with the remote raising, `set` writes the
serialization to the local fallback store. -/
theorem set_local_eq (st : CMState) (now : Int) (key : List Char)
    (v : PyVal) (ttl : Int) (s : List Char)
    (hser : CacheManager.serialize v = .ok s)
    (h : st.hasClient = false ∨ st.remoteOk = false) :
    CacheManager.set st now key v ttl =
      .ok { st with fallback := st.fallback.set now key s ttl } := by
  rw [CacheManager.set, hser]
  dsimp only
  rcases h with h | h
  · rw [if_neg (by simp [h])]
  · by_cases hc : st.hasClient
    · rw [if_pos hc, if_neg (by simp [h])]
    · rw [if_neg hc]

/-- When the remote attempt raises, `get` queries the local tier. -/
theorem get_raised_eq (st : CMState) (now : Int) (key : List Char)
    (h : CacheManager.remoteTryGet st key = .raised) :
    CacheManager.get st now key = CacheManager.localGet st now key := by
  rw [CacheManager.get]
  by_cases hc : st.hasClient
  · rw [if_pos hc, h]
  · rw [if_neg hc]

/-- An unhealthy remote makes every remote attempt raise. -/
theorem remoteTryGet_down (st : CMState) (key : List Char)
    (h : st.remoteOk = false) :
    CacheManager.remoteTryGet st key = .raised := by
  rw [CacheManager.remoteTryGet, if_neg (by simp [h])]

/-- A remote hit whose deserialization succeeds is returned directly. -/
theorem get_remote_hit (st : CMState) (now : Int) (key : List Char)
    (bs : List Nat) (r : PyVal) (hc : st.hasClient = true)
    (hok : st.remoteOk = true) (hdata : alGet st.remoteData key = some bs)
    (hdes : CacheManager.deserialize (some (.rbytes bs)) = .ok r) :
    CacheManager.get st now key = (r, st) := by
  rw [CacheManager.get, if_pos hc, CacheManager.remoteTryGet, if_pos hok,
    hdata]
  dsimp only
  rw [hdes]

/-- Claim C2: when the remote store raises during `get` — modelled both
by the unhealthy-remote flag and by the general "the try block raised"
outcome — the error is swallowed and the local store is queried instead;
the embedded `get` is a total function, so no remote-transport error
reaches the caller. -/
theorem C2_get_fallback :
    (∀ (st : CMState) (now : Int) (key : List Char),
      st.hasClient = true → st.remoteOk = false →
      CacheManager.get st now key = CacheManager.localGet st now key) ∧
    (∀ (st : CMState) (now : Int) (key : List Char),
      CacheManager.remoteTryGet st key = .raised →
      CacheManager.get st now key = CacheManager.localGet st now key) :=
  ⟨fun st now key _ hok => get_raised_eq st now key (remoteTryGet_down st key hok),
    fun st now key h => get_raised_eq st now key h⟩

/-- Witness for C2: a concrete down-remote state serves the local value. -/
theorem C2_witness :
    CacheManager.get ⟨true, false, [(['k'], [104])], ⟨[(['k'], (9, ['v']))]⟩⟩
        0 ['k'] =
      CacheManager.localGet
        ⟨true, false, [(['k'], [104])], ⟨[(['k'], (9, ['v']))]⟩⟩ 0 ['k'] :=
  C2_get_fallback.1 ⟨true, false, [(['k'], [104])], ⟨[(['k'], (9, ['v']))]⟩⟩
    0 ['k'] rfl rfl

/-- Claim C8: `_deserialize` decodes bytes to text first; it attempts a
JSON parse and returns the parsed value on success and the raw text
unchanged on `json.JSONDecodeError`; and a `get` never fails because of
undecodable remote content — a deserialization error inside the `try`
block falls back to the local tier. -/
theorem C8_deserialize :
    (∀ s : List Char, jsonLoads s = none →
      CacheManager.deserialize (some (.rstr s)) = .ok (.vstr s)) ∧
    (∀ (bs : List Nat) (s : List Char), utf8Decode bs = some s →
      CacheManager.deserialize (some (.rbytes bs)) =
        CacheManager.deserialize (some (.rstr s))) ∧
    (∀ (s : List Char) (j : PyVal), jsonLoads s = some j →
      CacheManager.deserialize (some (.rstr s)) = .ok j) ∧
    (∀ (st : CMState) (now : Int) (key : List Char) (bs : List Nat)
        (e : PyErr), st.hasClient = true → st.remoteOk = true →
      alGet st.remoteData key = some bs →
      CacheManager.deserialize (some (.rbytes bs)) = .error e →
      CacheManager.get st now key = CacheManager.localGet st now key) := by
  refine ⟨?_, ?_, ?_, ?_⟩
  · intro s h
    rw [CacheManager.deserialize, h]
  · intro bs s h
    rw [CacheManager.deserialize, CacheManager.deserialize, h]
  · intro s j h
    rw [CacheManager.deserialize, h]
  · intro st now key bs e hc hok hdata hdes
    refine get_raised_eq st now key ?_
    rw [CacheManager.remoteTryGet, if_pos hok, hdata]
    dsimp only
    rw [hdes]

/-- Witness for C8: non-JSON text comes back verbatim; bytes decode
first; JSON text parses; invalid UTF-8 from the remote falls back to the
local tier. -/
theorem C8_witness :
    CacheManager.deserialize (some (.rstr ['h', 'i'])) =
      .ok (.vstr ['h', 'i']) ∧
    CacheManager.deserialize (some (.rbytes [104, 105])) =
      CacheManager.deserialize (some (.rstr ['h', 'i'])) ∧
    CacheManager.deserialize (some (.rstr ['4', '2'])) = .ok (.vint 42) ∧
    CacheManager.get ⟨true, true, [(['k'], [255])], ⟨[]⟩⟩ 0 ['k'] =
      CacheManager.localGet ⟨true, true, [(['k'], [255])], ⟨[]⟩⟩ 0 ['k'] :=
  ⟨C8_deserialize.1 ['h', 'i'] (by rfl),
    C8_deserialize.2.1 [104, 105] ['h', 'i'] rfl,
    C8_deserialize.2.2.1 ['4', '2'] (.vint 42) (by rfl),
    C8_deserialize.2.2.2 ⟨true, true, [(['k'], [255])], ⟨[]⟩⟩ 0 ['k'] [255]
      .unicodeDecodeError rfl rfl rfl rfl⟩

/-- Deserializing the UTF-8 encoding of a text equals deserializing the
text itself. -/
theorem deserialize_encode (s : List Char) :
    CacheManager.deserialize (some (.rbytes (utf8Encode s))) =
      CacheManager.deserialize (some (.rstr s)) := by
  rw [CacheManager.deserialize, CacheManager.deserialize, utf8Decode_encode]

/-- Without a configured client, `get` goes straight to the local tier. -/
theorem get_noclient (st : CMState) (now : Int) (key : List Char)
    (h : st.hasClient = false) :
    CacheManager.get st now key = CacheManager.localGet st now key := by
  rw [CacheManager.get, if_neg (by simp [h])]

/-- Reading a key straight after a local `set` with a positive TTL at
the same clock value returns the stored text. -/
theorem localGet_after_set (st : CMState) (now : Int) (key : List Char)
    (s : List Char) (ttl : Int) (h : 0 < ttl) :
    (CacheManager.localGet
      { st with fallback := st.fallback.set now key s ttl } now key).1 =
      .vstr s := by
  rw [CacheManager.localGet]
  show (match TTLCache.get (st.fallback.set now key s ttl) now key with
    | (some s, fb) => ((PyVal.vstr s, _) : PyVal × CMState)
    | (none, fb) => (PyVal.vnull, _)).1 = PyVal.vstr s
  rw [TTLCache.set, TTLCache.get, alGet_alSet_self]
  dsimp only
  rw [if_neg (by omega)]

/-- Claim C4 (amended): `_serialize` passes strings through verbatim,
decodes bytes as UTF-8, and JSON-encodes structured values; a `set` on a
serializable value never raises — it writes the remote store when the
client is configured and healthy and the local store otherwise.  (For
bytes that are not valid UTF-8 the serialization itself raises
`UnicodeDecodeError` out of `set` — see the counterexample.) -/
theorem C4_set_amended :
    (∀ s : List Char, CacheManager.serialize (.vstr s) = .ok s) ∧
    (∀ (bs : List Nat) (s : List Char), utf8Decode bs = some s →
      CacheManager.serialize (.vbytes bs) = .ok s) ∧
    (∀ (v : PyVal) (cs : List Char), v.structured = true →
      jsonDumps v = some cs → CacheManager.serialize v = .ok cs) ∧
    (∀ (st : CMState) (now : Int) (key : List Char) (v : PyVal) (ttl : Int)
        (s : List Char), CacheManager.serialize v = .ok s →
      (st.hasClient = true → st.remoteOk = true →
        CacheManager.set st now key v ttl =
          .ok { st with
            remoteData := alSet st.remoteData key (utf8Encode s) }) ∧
      ((st.hasClient = false ∨ st.remoteOk = false) →
        CacheManager.set st now key v ttl =
          .ok { st with fallback := st.fallback.set now key s ttl })) := by
  refine ⟨fun s => rfl, ?_, serialize_structured, ?_⟩
  · intro bs s h
    rw [CacheManager.serialize, h]
  · intro st now key v ttl s hser
    exact ⟨fun hc hok => set_remote_eq st now key v ttl s hser hc hok,
      fun h => set_local_eq st now key v ttl s hser h⟩

/-- Witness for C4: bytes decode and pass through; a healthy remote
receives the write; a raising remote falls back to the local store. -/
theorem C4_witness :
    CacheManager.serialize (.vbytes [104, 105]) = .ok ['h', 'i'] ∧
    CacheManager.set ⟨true, true, [], ⟨[]⟩⟩ 0 ['k'] (.vstr ['v']) 60 =
      .ok ⟨true, true, alSet [] ['k'] (utf8Encode ['v']), ⟨[]⟩⟩ ∧
    CacheManager.set ⟨true, false, [], ⟨[]⟩⟩ 0 ['k'] (.vstr ['v']) 60 =
      .ok ⟨true, false, [], TTLCache.set ⟨[]⟩ 0 ['k'] ['v'] 60⟩ :=
  ⟨C4_set_amended.2.1 [104, 105] ['h', 'i'] rfl,
    (C4_set_amended.2.2.2 ⟨true, true, [], ⟨[]⟩⟩ 0 ['k'] (.vstr ['v']) 60
      ['v'] rfl).1 rfl rfl,
    (C4_set_amended.2.2.2 ⟨true, false, [], ⟨[]⟩⟩ 0 ['k'] (.vstr ['v']) 60
      ['v'] rfl).2 (Or.inr rfl)⟩

/-- Counterexample for C4 as stated: `set` is claimed never to raise,
but `_serialize` runs outside any `try`, so `set` of a byte string that
is not valid UTF-8 raises `UnicodeDecodeError` to the caller. -/
theorem C4_counterexample :
    CacheManager.set ⟨false, false, [], ⟨[]⟩⟩ 0 ['k'] (.vbytes [255]) 60 =
      .error .unicodeDecodeError := rfl

/-- Claim C1 (amended): for a positive TTL, `set(k, v, ttl)` followed
immediately by `get(k)` yields a value deserializing to `v` on both
tiers — remote serving the hit, remote raising so the local fallback
serves it, and no remote client at all — provided `v` is a string whose
text `json.loads` rejects, or a JSON-serializable structured value.
(A string whose text parses as JSON — even one merely padded with
whitespace, such as `123\n` — is returned parsed by the remote tier:
see the counterexample. A leading-zero numeral such as `0123` is not a
JSON document, so such a string round-trips verbatim: see the witness.
The string branch is confined by `floatFreeText` to texts that cannot
use a float numeral or `NaN`/`Infinity`, the real-decoder constructs
outside the modelled value universe; bytes come back as decoded
text.) -/
theorem C1_roundtrip_amended (rdata : List (List Char × List Nat))
    (fb : TTLCache (List Char)) (now : Int) (key : List Char) (v : PyVal)
    (ttl : Int) (httl : 0 < ttl)
    (hok : (∃ s, v = .vstr s ∧ jsonLoads s = none ∧
        floatFreeText s = true) ∨
      (v.structured = true ∧ ∃ cs, jsonDumps v = some cs)) :
    (∃ r, setThenGet ⟨true, true, rdata, fb⟩ now key v ttl = some r ∧
      deserializesToB r v = true) ∧
    (∃ r, setThenGet ⟨true, false, rdata, fb⟩ now key v ttl = some r ∧
      deserializesToB r v = true) ∧
    (∃ r, setThenGet ⟨false, false, rdata, fb⟩ now key v ttl = some r ∧
      deserializesToB r v = true) := by
  obtain ⟨s, hser, dv, hdes, hdvB, hstrB⟩ :
      ∃ s, CacheManager.serialize v = .ok s ∧
        ∃ dv, CacheManager.deserialize (some (.rstr s)) = .ok dv ∧
          deserializesToB dv v = true ∧ deserializesToB (.vstr s) v = true := by
    rcases hok with ⟨s, rfl, hnl, _⟩ | ⟨hstr, cs, hd⟩
    · refine ⟨s, rfl, .vstr s, ?_, ?_, ?_⟩
      · rw [CacheManager.deserialize, hnl]
      · simp [deserializesToB, PyVal.beq_refl]
      · simp [deserializesToB, PyVal.beq_refl]
    · have hloads := jsonLoads_dumps v cs hd
      have hdes : CacheManager.deserialize (some (.rstr cs)) = .ok v := by
        rw [CacheManager.deserialize, hloads]
      refine ⟨cs, serialize_structured v cs hstr hd, v, hdes, ?_, ?_⟩
      · simp [deserializesToB, PyVal.beq_refl]
      · rw [deserializesToB, hdes]
        simp [PyVal.beq_refl]
  refine ⟨⟨dv, ?_, hdvB⟩, ⟨.vstr s, ?_, hstrB⟩, ⟨.vstr s, ?_, hstrB⟩⟩
  · rw [setThenGet,
      set_remote_eq ⟨true, true, rdata, fb⟩ now key v ttl s hser rfl rfl]
    dsimp only
    rw [get_remote_hit _ now key (utf8Encode s) dv rfl rfl
      (alGet_alSet_self rdata key (utf8Encode s))
      (by rw [deserialize_encode, hdes])]
  · rw [setThenGet,
      set_local_eq ⟨true, false, rdata, fb⟩ now key v ttl s hser
        (Or.inr rfl)]
    dsimp only
    rw [get_raised_eq _ now key (remoteTryGet_down _ key rfl)]
    rw [localGet_after_set ⟨true, false, rdata, fb⟩ now key s ttl httl]
  · rw [setThenGet,
      set_local_eq ⟨false, false, rdata, fb⟩ now key v ttl s hser
        (Or.inl rfl)]
    dsimp only
    rw [get_noclient _ now key rfl]
    rw [localGet_after_set ⟨false, false, rdata, fb⟩ now key s ttl httl]

/-- Witness for C1 at the concrete string `"0123"`: a leading-zero
numeral is not a JSON document (`json.loads` parses its `0` and then
errors on extra data), so the string round-trips verbatim on all three
tiers. -/
theorem C1_witness :
    (∃ r, setThenGet ⟨true, true, [], ⟨[]⟩⟩ 0 ['k']
      (.vstr ['0', '1', '2', '3']) 60 =
      some r ∧ deserializesToB r (.vstr ['0', '1', '2', '3']) = true) ∧
    (∃ r, setThenGet ⟨true, false, [], ⟨[]⟩⟩ 0 ['k']
      (.vstr ['0', '1', '2', '3']) 60 =
      some r ∧ deserializesToB r (.vstr ['0', '1', '2', '3']) = true) ∧
    (∃ r, setThenGet ⟨false, false, [], ⟨[]⟩⟩ 0 ['k']
      (.vstr ['0', '1', '2', '3']) 60 =
      some r ∧ deserializesToB r (.vstr ['0', '1', '2', '3']) = true) :=
  C1_roundtrip_amended [] ⟨[]⟩ 0 ['k'] (.vstr ['0', '1', '2', '3']) 60
    (by omega) (Or.inl ⟨['0', '1', '2', '3'], rfl, rfl, rfl⟩)

/-- Counterexample for C1 as stated: the string `"123"` is serialized to
the text `123`, which the remote tier's deserialization parses back as
the integer `123`; the `get` after a `set` therefore returns a value
that does not deserialize to the original string when the remote tier
serves the read. The same happens to the whitespace-padded string
`"123\n"`, since `json.loads` skips whitespace around a document. -/
theorem C1_counterexample :
    setThenGet ⟨true, true, [], ⟨[]⟩⟩ 0 ['k'] (.vstr ['1', '2', '3']) 60 =
      some (.vint 123) ∧
    deserializesToB (.vint 123) (.vstr ['1', '2', '3']) = false ∧
    setThenGet ⟨true, true, [], ⟨[]⟩⟩ 0 ['k']
      (.vstr ['1', '2', '3', '\n']) 60 = some (.vint 123) ∧
    deserializesToB (.vint 123) (.vstr ['1', '2', '3', '\n']) = false :=
  ⟨rfl, rfl, rfl, rfl⟩

end AdvisorSpec
